import Mathlib

/-!
# Verification of the kalendarilo date/calendar kernel

Shallow embedding of the Rust sources of `kalendarilo`:

* `src/date.rs` — the JDN date kernel (`Date`),
* `src/time_scales.rs` — TDB/TT/TAI→UT conversion and the leap-second table,
* `src/chinese/mod.rs` — the lunisolar (sui) construction and queries.

Modelling conventions:

* A Rust `Date` wraps a `u32` Julian day number; we model the day number as
  `ℕ`, stating the `u32` bound `< 2^32` explicitly where it matters.
* Rust `i64`/`i32` arithmetic on the in-range values occurring here is exact
  integer arithmetic, modelled by `ℤ`.  Rust `/` and `%` on signed integers
  truncate towards zero: `Int.tdiv` / `Int.tmod`.  (`u32` arithmetic on
  values that stay in range is plain `ℕ` arithmetic.)
* Rust `f64` values in `time_scales.rs` are modelled as exact rationals `ℚ`;
  the transcendental part of the extrapolation formula (the cosine term,
  which involves `π`) is abstracted as a function parameter, since the claims
  about this code are branch/algebraic properties that hold for any value of
  that term.
* A Rust panic (`panic!`, `todo!`, `assert!`, arithmetic overflow with debug
  assertions, index out of bounds) aborts instead of returning; we model an
  aborting computation as `Option.none` of the corresponding `Option` result.
-/

/-! ## `src/date.rs` -/

/-- The JDN expression inside `Date::from_gregorian` (`src/date.rs:38-48`),
before the `u32::try_from` range check: the integer Gregorian→JDN formula
evaluated in `i64` arithmetic (Rust `/` truncates towards zero). -/
def fromGregorianJdn (year month day : Int) : Int :=
  Int.tdiv (1461 * (year + 4800 + Int.tdiv (month - 14) 12)) 4
    + Int.tdiv (367 * (month - 2 - 12 * Int.tdiv (month - 14) 12)) 12
    - Int.tdiv (3 * Int.tdiv (year + 4900 + Int.tdiv (month - 14) 12) 100) 4
    + day - 32075

/-- `Date::from_gregorian`: `u32::try_from(formula).map(Self::from_jdn).ok()`,
i.e. `some` of the JDN exactly when the formula's value fits in a `u32`. -/
def fromGregorian (year month day : Int) : Option Nat :=
  if 0 ≤ fromGregorianJdn year month day ∧ fromGregorianJdn year month day < 4294967296 then
    some (fromGregorianJdn year month day).toNat
  else none

/-- Intermediate `f` of `Date::gregorian` (`src/date.rs:63`). -/
def greg_f (j : Int) : Int :=
  j + 1401 + Int.tdiv (Int.tdiv (4 * j + 274277) 146097 * 3) 4 - 38

/-- Intermediate `e` of `Date::gregorian` (`src/date.rs:64`). -/
def greg_e (j : Int) : Int := 4 * greg_f j + 3

/-- Intermediate `g` of `Date::gregorian` (`src/date.rs:65`). -/
def greg_g (j : Int) : Int := Int.tdiv (Int.tmod (greg_e j) 1461) 4

/-- Intermediate `h` of `Date::gregorian` (`src/date.rs:66`). -/
def greg_h (j : Int) : Int := 5 * greg_g j + 2

/-- The `day` component of `Date::gregorian` (`src/date.rs:67`). -/
def greg_day (j : Int) : Int := Int.tdiv (Int.tmod (greg_h j) 153) 5 + 1

/-- The `month` component of `Date::gregorian` (`src/date.rs:68`). -/
def greg_month (j : Int) : Int := Int.tmod (Int.tdiv (greg_h j) 153 + 2) 12 + 1

/-- The `year` component of `Date::gregorian` (`src/date.rs:69`). -/
def greg_year (j : Int) : Int :=
  Int.tdiv (greg_e j) 1461 - 4716 + Int.tdiv (12 + 2 - greg_month j) 12

/-- `Date::gregorian` (`src/date.rs:61-72`), as `(year, month, day)`. -/
def gregorian (jdn : Nat) : Int × Int × Int :=
  (greg_year jdn, greg_month jdn, greg_day jdn)

/-- `Date::day_of_week` (`src/date.rs:102-104`): `self.jdn % 7 + 1`. -/
def dayOfWeek (jdn : Nat) : Nat := jdn % 7 + 1

/-- `Date::sexagenary` (`src/date.rs:116-118`): `(self.jdn % 60 + 49) % 60 + 1`. -/
def sexagenary (jdn : Nat) : Nat := (jdn % 60 + 49) % 60 + 1

/-! ### Truncating vs euclidean division bridges

All divisions in `Date::gregorian` act on non-negative operands, where Rust's
truncating division agrees with euclidean division; `from_gregorian` has the
single possibly-negative division `(m - 14) / 12`. -/

theorem tdiv_nonneg_eq (a b : Int) (ha : 0 ≤ a) (hb : 0 ≤ b) :
    Int.tdiv a b = a / b := Int.tdiv_eq_ediv ha hb

theorem tmod_nonneg_eq (a b : Int) (ha : 0 ≤ a) (hb : 0 ≤ b) :
    Int.tmod a b = a % b := Int.tmod_eq_emod ha hb

theorem greg_f_eq (j : Int) (hj : 0 ≤ j) :
    greg_f j = j + 1401 + ((4 * j + 274277) / 146097 * 3) / 4 - 38 := by
  unfold greg_f
  rw [tdiv_nonneg_eq (4 * j + 274277) 146097 (by omega) (by norm_num),
    tdiv_nonneg_eq _ 4 (by positivity) (by norm_num)]

theorem greg_f_nonneg (j : Int) (hj : 0 ≤ j) : 0 ≤ greg_f j := by
  rw [greg_f_eq j hj]
  have h1 : 0 ≤ (4 * j + 274277) / 146097 := by positivity
  have h2 : 0 ≤ (4 * j + 274277) / 146097 * 3 / 4 := by positivity
  omega

theorem greg_e_eq (j : Int) : greg_e j = 4 * greg_f j + 3 := rfl

theorem greg_e_nonneg (j : Int) (hj : 0 ≤ j) : 0 ≤ greg_e j := by
  have := greg_f_nonneg j hj
  rw [greg_e_eq]
  omega

theorem greg_g_eq (j : Int) (hj : 0 ≤ j) : greg_g j = greg_e j % 1461 / 4 := by
  unfold greg_g
  rw [tmod_nonneg_eq _ 1461 (greg_e_nonneg j hj) (by norm_num),
    tdiv_nonneg_eq _ 4 (Int.emod_nonneg _ (by norm_num)) (by norm_num)]

theorem greg_g_nonneg (j : Int) (hj : 0 ≤ j) : 0 ≤ greg_g j := by
  rw [greg_g_eq j hj]
  exact Int.ediv_nonneg (Int.emod_nonneg _ (by norm_num)) (by norm_num)

theorem greg_h_nonneg (j : Int) (hj : 0 ≤ j) : 0 ≤ greg_h j := by
  have := greg_g_nonneg j hj
  unfold greg_h
  omega

theorem greg_day_eq (j : Int) (hj : 0 ≤ j) : greg_day j = greg_h j % 153 / 5 + 1 := by
  unfold greg_day
  rw [tmod_nonneg_eq _ 153 (greg_h_nonneg j hj) (by norm_num),
    tdiv_nonneg_eq _ 5 (Int.emod_nonneg _ (by norm_num)) (by norm_num)]

theorem greg_month_eq (j : Int) (hj : 0 ≤ j) :
    greg_month j = (greg_h j / 153 + 2) % 12 + 1 := by
  have h0 : 0 ≤ greg_h j / 153 :=
    Int.ediv_nonneg (greg_h_nonneg j hj) (by norm_num)
  unfold greg_month
  rw [tdiv_nonneg_eq _ 153 (greg_h_nonneg j hj) (by norm_num),
    tmod_nonneg_eq _ 12 (by omega) (by norm_num)]

theorem greg_month_range (j : Int) (hj : 0 ≤ j) :
    1 ≤ greg_month j ∧ greg_month j ≤ 12 := by
  rw [greg_month_eq j hj]
  omega

theorem greg_year_eq (j : Int) (hj : 0 ≤ j) :
    greg_year j = greg_e j / 1461 - 4716 + (12 + 2 - greg_month j) / 12 := by
  obtain ⟨h1, h2⟩ := greg_month_range j hj
  unfold greg_year
  rw [tdiv_nonneg_eq _ 1461 (greg_e_nonneg j hj) (by norm_num),
    tdiv_nonneg_eq _ 12 (by omega) (by norm_num)]

/-- For a month number in `1..=12`, Rust's `(m - 14) / 12` (truncating) equals
`-((14 - m) / 12)` with euclidean division: `-1` for January/February, `0`
otherwise. -/
theorem tdiv_month_sub_14 (m : Int) (h1 : 1 ≤ m) (h2 : m ≤ 12) :
    Int.tdiv (m - 14) 12 = -((14 - m) / 12) := by
  rw [show m - 14 = -(14 - m) by ring, Int.neg_tdiv,
    tdiv_nonneg_eq (14 - m) 12 (by omega) (by norm_num)]

/-- `fromGregorianJdn` in euclidean-division normal form, for a month in
`1..=12` and a year bounded below so that every other operand is
non-negative. -/
theorem fromGregorianJdn_eq (y m d : Int) (hm1 : 1 ≤ m) (hm2 : m ≤ 12)
    (hy : -4716 ≤ y) :
    fromGregorianJdn y m d =
      1461 * (y + 4800 + -((14 - m) / 12)) / 4
        + 367 * (m - 2 - 12 * -((14 - m) / 12)) / 12
        - 3 * ((y + 4900 + -((14 - m) / 12)) / 100) / 4
        + d - 32075 := by
  unfold fromGregorianJdn
  rw [tdiv_month_sub_14 m hm1 hm2]
  have hk : -((14 - m) / 12) = -1 ∨ -((14 - m) / 12) = 0 := by omega
  have h1 : 0 ≤ 1461 * (y + 4800 + -((14 - m) / 12)) := by omega
  have h2 : 0 ≤ 367 * (m - 2 - 12 * -((14 - m) / 12)) := by omega
  have h3 : 0 ≤ y + 4900 + -((14 - m) / 12) := by omega
  rw [tdiv_nonneg_eq _ 4 h1 (by norm_num), tdiv_nonneg_eq _ 12 h2 (by norm_num),
    tdiv_nonneg_eq _ 100 h3 (by norm_num),
    tdiv_nonneg_eq _ 4 (by positivity) (by norm_num)]

/-! ### The Gregorian round trip (claim C4)

The proof decomposes the Richards algorithm along its 400-year (century)
structure: `c` counts centuries via the `/146097` division, `z` locates the
year inside the 400-year cycle, and `withinCycle` disposes of the month/day
arithmetic inside one 4-year cycle. -/

theorem rt_withinCycle (r g hh dy mo o : Int)
    (hrr : 0 ≤ r ∧ r ≤ 1460)
    (hg : g = r / 4)
    (hhh : hh = 5 * g + 2)
    (hdy : dy = (hh % 153) / 5 + 1)
    (hmo : mo = (hh / 153 + 2) % 12 + 1)
    (ho : o = (14 - mo) / 12) :
    (122727 - r) / 4 + 367 * (mo - 2 + 12 * o) / 12 + dy = 30712 := by
  set p := hh / 153 with hpdef
  have hp1 : 0 ≤ p := by omega
  have hp2 : p ≤ 11 := by omega
  interval_cases p <;> omega

theorem rt_centuryStep (j c v b u f e : Int)
    (hc : c = (4 * j + 274277) / 146097)
    (hv : v = (4 * j + 274277) % 146097)
    (hb : b = 3 * c / 4)
    (hu : u = 3 * c % 4)
    (hf : f = j + 1401 + b - 38)
    (he : e = 4 * f + 3) :
    e = 146100 * c + v - u - 268822 ∧ 0 ≤ v ∧ v ≤ 146096 ∧ 0 ≤ u ∧ u ≤ 3 ∧
      3 * c = 4 * b + u ∧ f = j + 1363 + b := by
  refine ⟨by omega, by omega, by omega, by omega, by omega, by omega, by omega⟩

theorem rt_zFacts (c v u e Y r : Int)
    (he2 : e = 146100 * c + v - u - 268822)
    (hvr : 0 ≤ v) (hvr2 : v ≤ 146096)
    (hur : 0 ≤ u) (hur2 : u ≤ 3)
    (hY : Y = e / 1461)
    (hr : r = e % 1461) :
    ∃ z, (-185 ≤ z ∧ z ≤ -85) ∧ Y = z + 100 * c ∧
      r = (v - u - 268822) - 1461 * z ∧ (z = -185 → v = 0 ∧ u = 3) := by
  refine ⟨(v - u - 268822) / 1461, by omega, ?_, by omega, by omega⟩
  rw [hY, show e = (v - u - 268822) + 1461 * (100 * c) by omega,
    Int.add_mul_ediv_left _ _ (by norm_num : (1461 : Int) ≠ 0)]

theorem rt_aTerm (f e Y r yr K o : Int)
    (heY : e = 1461 * Y + r)
    (he : e = 4 * f + 3)
    (hyr : yr = Y - 4716 + o)
    (hK : K = -o) :
    1461 * (yr + 4800 + K) / 4 = (122727 - r) / 4 + f := by
  rw [show 1461 * (yr + 4800 + K) = (122727 - r) + 4 * f by omega,
    Int.add_mul_ediv_left _ _ (by norm_num : (4 : Int) ≠ 0)]

theorem rt_cTerm (c v b u z Y yr K o : Int)
    (hzr : -185 ≤ z ∧ z ≤ -85)
    (hzkey : z = -185 → v = 0 ∧ u = 3)
    (hzY : Y = z + 100 * c)
    (hcb : 3 * c = 4 * b + u)
    (hur : 0 ≤ u) (hur2 : u ≤ 3)
    (hyr : yr = Y - 4716 + o)
    (hK : K = -o) :
    3 * ((yr + 4900 + K) / 100) / 4 = b := by
  rw [show yr + 4900 + K = (z + 184) + 100 * c by omega,
    Int.add_mul_ediv_left _ _ (by norm_num : (100 : Int) ≠ 0)]
  rcases (show z = -185 ∨ -184 ≤ z by omega) with h | h
  · obtain ⟨h1, h2⟩ := hzkey h
    subst h h1 h2
    omega
  · have h0 : (z + 184) / 100 = 0 := by omega
    rw [h0]
    omega

set_option linter.unusedVariables false in
theorem rt_core (j c v b u f e Y r g hh dy mo o K yr : Int)
    (he2 : e = 146100 * c + v - u - 268822)
    (hvr : 0 ≤ v) (hvr2 : v ≤ 146096)
    (hur : 0 ≤ u) (hur2 : u ≤ 3)
    (hcb : 3 * c = 4 * b + u)
    (hf : f = j + 1363 + b)
    (he : e = 4 * f + 3)
    (hY : Y = e / 1461)
    (hr : r = e % 1461)
    (hg : g = r / 4)
    (hhh : hh = 5 * g + 2)
    (hdy : dy = (hh % 153) / 5 + 1)
    (hmo : mo = (hh / 153 + 2) % 12 + 1)
    (ho : o = (14 - mo) / 12)
    (hK : K = -o)
    (hyr : yr = Y - 4716 + o) :
    1461 * (yr + 4800 + K) / 4 + 367 * (mo - 2 - 12 * K) / 12
      - 3 * ((yr + 4900 + K) / 100) / 4 + dy - 32075 = j := by
  obtain ⟨z, hzr, hzY, hzrel, hzkey⟩ := rt_zFacts c v u e Y r he2 hvr hvr2 hur hur2 hY hr
  have heY : e = 1461 * Y + r := by omega
  have hrr : 0 ≤ r ∧ r ≤ 1460 := by omega
  have hA := rt_aTerm f e Y r yr K o heY he hyr hK
  have hC := rt_cTerm c v b u z Y yr K o hzr hzkey hzY hcb hur hur2 hyr hK
  have hW := rt_withinCycle r g hh dy mo o hrr hg hhh hdy hmo ho
  have hB : 367 * (mo - 2 - 12 * K) / 12 = 367 * (mo - 2 + 12 * o) / 12 := by
    rw [hK]; ring_nf
  rw [hA, hC, hB]
  clear hzr hzY hzrel hzkey he2 hY hr hg hhh hdy hmo ho hA hC hB he heY hcb
  omega

/-- The JDN formula inverts `gregorian` on every non-negative integer JDN. -/
theorem fromGregorianJdn_gregorian (j : Int) (hj : 0 ≤ j) :
    fromGregorianJdn (greg_year j) (greg_month j) (greg_day j) = j := by
  obtain ⟨hm1, hm2⟩ := greg_month_range j hj
  have hYnn : 0 ≤ greg_e j / 1461 :=
    Int.ediv_nonneg (greg_e_nonneg j hj) (by norm_num)
  have honn : (0 : Int) ≤ (12 + 2 - greg_month j) / 12 := by
    apply Int.ediv_nonneg (by omega) (by norm_num)
  have hy : -4716 ≤ greg_year j := by
    rw [greg_year_eq j hj]
    omega
  rw [fromGregorianJdn_eq (greg_year j) (greg_month j) (greg_day j) hm1 hm2 hy]
  obtain ⟨he2, hvr, hvr2, hur, hur2, hcb, hf⟩ :=
    rt_centuryStep j ((4 * j + 274277) / 146097) ((4 * j + 274277) % 146097)
      ((4 * j + 274277) / 146097 * 3 / 4) ((4 * j + 274277) / 146097 * 3 % 4)
      (greg_f j) (greg_e j)
      rfl rfl (by ring_nf) (by ring_nf) (greg_f_eq j hj) rfl
  have ho14 : (12 + 2 - greg_month j : Int) = 14 - greg_month j := by ring
  have := rt_core j ((4 * j + 274277) / 146097) ((4 * j + 274277) % 146097)
      ((4 * j + 274277) / 146097 * 3 / 4) ((4 * j + 274277) / 146097 * 3 % 4)
      (greg_f j) (greg_e j) (greg_e j / 1461) (greg_e j % 1461)
      (greg_g j) (greg_h j) (greg_day j) (greg_month j)
      ((14 - greg_month j) / 12) (-((14 - greg_month j) / 12)) (greg_year j)
      he2 hvr hvr2 hur hur2 hcb hf rfl rfl rfl
      (greg_g_eq j hj) rfl (greg_day_eq j hj) (greg_month_eq j hj) rfl rfl
      (by rw [greg_year_eq j hj, ho14])
  convert this using 2

/-- **C4.** For every `u32` JDN `j`, feeding the `(year, month, day)` triple
produced by `Date::from_jdn(j).gregorian()` back into `Date::from_gregorian`
returns `Some` of exactly the date `Date::from_jdn(j)`: the Gregorian
conversion round-trips exactly on the whole representable range (year 0 and
negative years included). -/
theorem gregorian_roundtrip (j : Nat) (hj : j < 4294967296) :
    fromGregorian (gregorian j).1 (gregorian j).2.1 (gregorian j).2.2 = some j := by
  have hj0 : (0 : Int) ≤ (j : Int) := Int.natCast_nonneg j
  have hcore := fromGregorianJdn_gregorian j hj0
  unfold gregorian
  simp only [fromGregorian, hcore]
  rw [if_pos ⟨hj0, by exact_mod_cast hj⟩]
  simp

/-- **C4 witness.** The round trip evaluated at the JDN of 2000-01-01. -/
theorem gregorian_roundtrip_witness :
    fromGregorian (gregorian 2451545).1 (gregorian 2451545).2.1 (gregorian 2451545).2.2
      = some 2451545 :=
  gregorian_roundtrip 2451545 (by norm_num)

/-! ### `from_gregorian` without range validation (claim C10) -/

/-- **C10 counterexample.** Month overflow does *not* always denote the
normalized date: `(1999, 15, 1)` normalizes to 2000-03-01 (JDN 2451605), but
`from_gregorian(1999, 15, 1)` yields JDN 2451606. -/
theorem fromGregorian_month_cex :
    fromGregorian 1999 15 1 ≠ fromGregorian 2000 3 1 ∧
      fromGregorian 1999 15 1 = some 2451606 ∧
      fromGregorian 2000 3 1 = some 2451605 := by
  refine ⟨?_, by decide, by decide⟩
  decide

/-- **C10 (amended).** `from_gregorian` performs no range validation: the
formula is applied directly to any `(year, month, day)`.  Day overflow always
denotes the normalized date (the result is linear in the day argument), and
in particular `from_gregorian(1999, 12, 32) = from_gregorian(2000, 1, 1)`;
`None` is returned exactly when the computed JDN falls outside the `u32`
range.  (General month overflow need not normalize; see the
counterexample.) -/
theorem fromGregorian_no_validation :
    (∀ y m d k : Int, fromGregorianJdn y m (d + k) = fromGregorianJdn y m d + k) ∧
      fromGregorian 1999 12 32 = fromGregorian 2000 1 1 ∧
      (∀ y m d : Int, fromGregorian y m d = none ↔
        ¬(0 ≤ fromGregorianJdn y m d ∧ fromGregorianJdn y m d < 4294967296)) := by
  refine ⟨fun y m d k => by unfold fromGregorianJdn; ring, by decide, fun y m d => ?_⟩
  unfold fromGregorian
  split <;> simp_all

/-! ### `Date` arithmetic (claim C7) -/

/-- `impl Add<i32> for Date` (`src/date.rs:157-162`):
`self.jdn.strict_add_signed(rhs)`, which aborts (panics) whenever the
mathematical sum does not fit in `u32`. -/
def dateAddSigned (jdn : Nat) (rhs : Int) : Option Nat :=
  if 0 ≤ (jdn : Int) + rhs ∧ (jdn : Int) + rhs < 4294967296
  then some ((jdn : Int) + rhs).toNat else none

/-- `impl Add<u32> for Date` (`src/date.rs:163-168`): plain `self.jdn + rhs`
on `u32`.  Without debug assertions (the default release profile) overflow
wraps modulo `2^32`; with debug assertions it panics. This definition is the
release semantics. -/
def dateAddUnsigned (jdn rhs : Nat) : Nat := (jdn + rhs) % 4294967296

/-- `impl Sub<Date> for Date` (`src/date.rs:169-174`): plain
`self.jdn - rhs.jdn` on `u32`; release semantics (wrap modulo `2^32`). -/
def dateSub (jdn rhs : Nat) : Nat := (4294967296 + jdn - rhs) % 4294967296

/-- **C7.** `Date + i32` does fault on overflow (`strict_add_signed`), and is
exact in range; but `Date + u32` in a release build silently wraps:
`Date::from_jdn(u32::MAX) + 1u32` evaluates to `Date::from_jdn(0)` instead of
faulting, and `Date::from_jdn(0) - Date::from_jdn(1)` wraps to `u32::MAX`.
This contradicts the claim that all three operations always fault instead of
wrapping. -/
theorem date_arith_overflow :
    dateAddSigned 4294967295 1 = none ∧
      dateAddUnsigned 4294967295 1 = 0 ∧
      dateSub 0 1 = 4294967295 ∧
      (∀ jdn rhs : Nat, jdn + rhs < 4294967296 → dateAddUnsigned jdn rhs = jdn + rhs) := by
  refine ⟨by decide, by decide, by decide, fun jdn rhs h => ?_⟩
  unfold dateAddUnsigned
  omega

/-! ## `src/time_scales.rs`

`f64` values are modelled as exact rationals.  The one transcendental
ingredient — the term `284.8435805251424 * cos(2π(t + 0.75)/14)` of
`leap_seconds::estimate` — is abstracted as a function parameter `cosTerm`
applied to `t`; the claims below hold for every `cosTerm`. -/

/-- `Tt::from(Tai)` (`src/time_scales.rs:36-40`): `tai + 32.184 / 86400`. -/
def ttOfTai (tai : ℚ) : ℚ := tai + 32.184 / 86400

/-- `Tai::from(Tt)` (`src/time_scales.rs:47-51`): `tt - 32.184 / 86400`.
`Tai::from(Tdb)` composes this with the numerical identity `Tt::from(Tdb)`. -/
def taiOfTt (tt : ℚ) : ℚ := tt - 32.184 / 86400

/-- `leap_seconds::DATES` (`src/time_scales.rs:141-169`): the leap-second
insertion dates. -/
def leapSecondDATES : List (Int × Int × Int) :=
  [(1972, 6, 30), (1972, 12, 31), (1973, 12, 31), (1974, 12, 31), (1975, 12, 31),
   (1976, 12, 31), (1977, 12, 31), (1978, 12, 31), (1979, 12, 31), (1981, 6, 30),
   (1982, 6, 30), (1983, 6, 30), (1985, 6, 30), (1987, 12, 31), (1989, 12, 31),
   (1990, 12, 31), (1992, 6, 30), (1993, 6, 30), (1994, 6, 30), (1995, 12, 31),
   (1997, 6, 30), (1998, 12, 31), (2005, 12, 31), (2008, 12, 31), (2012, 6, 30),
   (2015, 6, 30), (2016, 12, 31)]

/-- `leap_seconds::DATE_EXPIRES` (`src/time_scales.rs:170`). -/
def DATE_EXPIRES : Int × Int × Int := (2021, 12, 31)

/-- The `Date::from_gregorian(y, m, d).unwrap().jdn()` computations inside
`leap_seconds::data` (`src/time_scales.rs:193-222`); `data` panics on `None`,
which never happens on the dates it uses (each is `some`, see
`leapSecond_dates_valid`). -/
def jdnOfYmd (y m d : Int) : Nat := (fromGregorian y m d).getD 0

/-- Every date used by `leap_seconds::data` is accepted by
`Date::from_gregorian`, so the `unwrap_or_else(panic!)` paths are dead. -/
theorem leapSecond_dates_valid :
    (∀ ymd ∈ leapSecondDATES, (fromGregorian ymd.1 ymd.2.1 ymd.2.2).isSome) ∧
      (fromGregorian 1972 1 1).isSome ∧
      (fromGregorian DATE_EXPIRES.1 DATE_EXPIRES.2.1 DATE_EXPIRES.2.2).isSome := by
  decide

/-- The leap-second table built by `leap_seconds::data`
(`src/time_scales.rs:201-209`): entry `i` (0-based) pairs the TAI instant
`jdn + (43199 + (10 + i)) / 86400` with `delta_secs = 10 + i`. -/
def buildLeapSeconds : Int → List (Int × Int × Int) → List (ℚ × Int)
  | _, [] => []
  | delta, ymd :: rest =>
      ((jdnOfYmd ymd.1 ymd.2.1 ymd.2.2 : ℚ) + (43199 + delta) / 86400, delta)
        :: buildLeapSeconds (delta + 1) rest

/-- The table, built from `DATES` starting at `delta_secs = 10`. -/
def leapSeconds : List (ℚ × Int) := buildLeapSeconds 10 leapSecondDATES

/-- `Data.starts` (`src/time_scales.rs:195-196`): 1972-01-01 TAI plus 10 s. -/
def lsStarts : ℚ := (jdnOfYmd 1972 1 1 : ℚ) + 10 / 86400

/-- `Data.expires` (`src/time_scales.rs:210-214`): the TAI instant of the
table expiry date with offset `43199 + 10 + DATES.len()` seconds. -/
def lsExpires : ℚ :=
  (jdnOfYmd DATE_EXPIRES.1 DATE_EXPIRES.2.1 DATE_EXPIRES.2.2 : ℚ)
    + (43199 + 10 + (leapSecondDATES.length : Int)) / 86400

/-- `leap_seconds::estimate` (`src/time_scales.rs:224-230`) on a TT value:
`31.4115 t² + (cosine term)` with `t = (y − 1825)/100`,
`y = (tt − 2451544.5)/365.2425 + 2000`.  The cosine term is the abstract
`cosTerm t`. -/
def estimate (cosTerm : ℚ → ℚ) (tt : ℚ) : ℚ :=
  31.4115 * (((tt - 2451544.5) / 365.2425 + 2000 - 1825) / 100)
      * (((tt - 2451544.5) / 365.2425 + 2000 - 1825) / 100)
    + cosTerm (((tt - 2451544.5) / 365.2425 + 2000 - 1825) / 100)

/-- `estimate` applied to a TAI value (the `T: Into<Tt>` conversion first
adds the fixed TT−TAI offset). -/
def estimateOfTai (cosTerm : ℚ → ℚ) (tai : ℚ) : ℚ := estimate cosTerm (ttOfTai tai)

/-- The calibration constant `c2` of `leap_seconds::data`
(`src/time_scales.rs:215`): `(DATES.len() + 10) - estimate(expires_tai)`. -/
def ls_c2 (cosTerm : ℚ → ℚ) : ℚ :=
  ((leapSecondDATES.length : ℚ) + 10) - estimateOfTai cosTerm lsExpires

/-- `Ut::convert` (`src/time_scales.rs:91-116`) of a TAI instant.
`none` models the `todo!("UT before UTC (1972-01-01)")` abort.  The
`partition_point` lookup followed by `i - 1` selects the last table entry
whose TAI instant is `≤` the query (the table is sorted), modelled with
`takeWhile`/`getLast?`; an empty prefix is the fixed pre-table 10 s branch. -/
def utConvert (cosTerm : ℚ → ℚ) (tai : ℚ) : Option ℚ :=
  if tai < lsStarts then none
  else if lsExpires < tai then
    some (tai - (estimateOfTai cosTerm tai + ls_c2 cosTerm) / 86400)
  else
    match (leapSeconds.takeWhile fun ls => ls.1 ≤ tai).getLast? with
    | none => some (tai - 10 / 86400)
    | some ls => some (tai - ((ls.2 : ℚ) + min (tai - ls.1) 2 / 2) / 86400)

/-- `Date::from_gregorian(1972, 1, 1)` has JDN 2441318, so
`starts = 2441318 + 10/86400` TAI. -/
theorem jdn_1972_1_1 : jdnOfYmd 1972 1 1 = 2441318 := by decide

/-- **C6 counterexample.** For a TAI input strictly before the supported
table start (here 1972-01-01 TAI midnight, JD 2441318.0, which precedes
`starts` = 1972-01-01T00:00:10 TAI), `Ut::convert` does *not* return any
value at all — it aborts via `todo!` — so no `Unsupported` error value is
propagated to the caller (the function's return type has no error channel). -/
theorem utConvert_pre1972_cex :
    utConvert (fun _ => 0) 2441318 = none ∧
      ¬∃ u, utConvert (fun _ => 0) 2441318 = some u := by
  have h : utConvert (fun _ => 0) 2441318 = none := by
    unfold utConvert
    rw [if_pos]
    unfold lsStarts
    rw [jdn_1972_1_1]
    norm_num
  exact ⟨h, by simp [h]⟩

/-- **C6 (amended).** For every input whose TAI value precedes
1972-01-01T00:00:10 TAI, `Ut::convert` aborts with the explicit
`todo!("UT before UTC (1972-01-01)")` panic: it never silently approximates
the conversion and never returns a `Ut` value for such an input (but the
failure is an abort, not an error value returned to the caller). -/
theorem utConvert_pre1972 (cosTerm : ℚ → ℚ) (tai : ℚ) (h : tai < lsStarts) :
    utConvert cosTerm tai = none := by
  unfold utConvert
  rw [if_pos h]

/-- **C6 witness.** The amended theorem applied at TAI JD 2441318.0. -/
theorem utConvert_pre1972_witness :
    utConvert (fun _ => 1) 2441318 = none :=
  utConvert_pre1972 (fun _ => 1) 2441318
    (by unfold lsStarts; rw [jdn_1972_1_1]; norm_num)

/-- The leap-second table evaluated: the 27 `(TAI instant, delta_secs)`
entries with `delta_secs` running from 10 to 36. -/
theorem leapSeconds_eval : leapSeconds =
  [((2441499 : ℚ) + 43209 / 86400, 10),
((2441683 : ℚ) + 43210 / 86400, 11),
((2442048 : ℚ) + 43211 / 86400, 12),
((2442413 : ℚ) + 43212 / 86400, 13),
((2442778 : ℚ) + 43213 / 86400, 14),
((2443144 : ℚ) + 43214 / 86400, 15),
((2443509 : ℚ) + 43215 / 86400, 16),
((2443874 : ℚ) + 43216 / 86400, 17),
((2444239 : ℚ) + 43217 / 86400, 18),
((2444786 : ℚ) + 43218 / 86400, 19),
((2445151 : ℚ) + 43219 / 86400, 20),
((2445516 : ℚ) + 43220 / 86400, 21),
((2446247 : ℚ) + 43221 / 86400, 22),
((2447161 : ℚ) + 43222 / 86400, 23),
((2447892 : ℚ) + 43223 / 86400, 24),
((2448257 : ℚ) + 43224 / 86400, 25),
((2448804 : ℚ) + 43225 / 86400, 26),
((2449169 : ℚ) + 43226 / 86400, 27),
((2449534 : ℚ) + 43227 / 86400, 28),
((2450083 : ℚ) + 43228 / 86400, 29),
((2450630 : ℚ) + 43229 / 86400, 30),
((2451179 : ℚ) + 43230 / 86400, 31),
((2453736 : ℚ) + 43231 / 86400, 32),
((2454832 : ℚ) + 43232 / 86400, 33),
((2456109 : ℚ) + 43233 / 86400, 34),
((2457204 : ℚ) + 43234 / 86400, 35),
((2457754 : ℚ) + 43235 / 86400, 36)] := by
  simp only [leapSeconds, buildLeapSeconds, leapSecondDATES,
    show jdnOfYmd 1972 6 30 = 2441499 from by decide,
    show jdnOfYmd 1972 12 31 = 2441683 from by decide,
    show jdnOfYmd 1973 12 31 = 2442048 from by decide,
    show jdnOfYmd 1974 12 31 = 2442413 from by decide,
    show jdnOfYmd 1975 12 31 = 2442778 from by decide,
    show jdnOfYmd 1976 12 31 = 2443144 from by decide,
    show jdnOfYmd 1977 12 31 = 2443509 from by decide,
    show jdnOfYmd 1978 12 31 = 2443874 from by decide,
    show jdnOfYmd 1979 12 31 = 2444239 from by decide,
    show jdnOfYmd 1981 6 30 = 2444786 from by decide,
    show jdnOfYmd 1982 6 30 = 2445151 from by decide,
    show jdnOfYmd 1983 6 30 = 2445516 from by decide,
    show jdnOfYmd 1985 6 30 = 2446247 from by decide,
    show jdnOfYmd 1987 12 31 = 2447161 from by decide,
    show jdnOfYmd 1989 12 31 = 2447892 from by decide,
    show jdnOfYmd 1990 12 31 = 2448257 from by decide,
    show jdnOfYmd 1992 6 30 = 2448804 from by decide,
    show jdnOfYmd 1993 6 30 = 2449169 from by decide,
    show jdnOfYmd 1994 6 30 = 2449534 from by decide,
    show jdnOfYmd 1995 12 31 = 2450083 from by decide,
    show jdnOfYmd 1997 6 30 = 2450630 from by decide,
    show jdnOfYmd 1998 12 31 = 2451179 from by decide,
    show jdnOfYmd 2005 12 31 = 2453736 from by decide,
    show jdnOfYmd 2008 12 31 = 2454832 from by decide,
    show jdnOfYmd 2012 6 30 = 2456109 from by decide,
    show jdnOfYmd 2015 6 30 = 2457204 from by decide,
    show jdnOfYmd 2016 12 31 = 2457754 from by decide]
  norm_num

/-- `Date::from_gregorian(2021, 12, 31)` (the expiry date) has JDN 2459580. -/
theorem jdn_expires : jdnOfYmd 2021 12 31 = 2459580 := by decide

/-- The expiry instant as an explicit rational. -/
theorem lsExpires_eval : lsExpires = (2459580 : ℚ) + 43236 / 86400 := by
  unfold lsExpires DATE_EXPIRES
  rw [jdn_expires]
  norm_num [leapSecondDATES]

/-- At the expiry instant the tabulated branch of `Ut::convert` applies: the
last table entry (2016-12-31, `delta_secs = 36`) is selected and the
2-second leap ramp is complete, so the offset in effect is `36 + 1 = 37`
seconds. -/
theorem utConvert_at_expiry (cosTerm : ℚ → ℚ) :
    utConvert cosTerm lsExpires = some (lsExpires - 37 / 86400) := by
  unfold utConvert
  rw [if_neg, if_neg]
  · have htw : (leapSeconds.takeWhile fun ls => ls.1 ≤ lsExpires) = leapSeconds := by
      rw [List.takeWhile_eq_self_iff]
      rw [leapSeconds_eval, lsExpires_eval]
      intro a ha
      fin_cases ha <;> norm_num
    rw [htw, leapSeconds_eval]
    have hlast :
        ([((2441499 : ℚ) + 43209 / 86400, (10 : Int)),
          ((2441683 : ℚ) + 43210 / 86400, 11), ((2442048 : ℚ) + 43211 / 86400, 12),
          ((2442413 : ℚ) + 43212 / 86400, 13), ((2442778 : ℚ) + 43213 / 86400, 14),
          ((2443144 : ℚ) + 43214 / 86400, 15), ((2443509 : ℚ) + 43215 / 86400, 16),
          ((2443874 : ℚ) + 43216 / 86400, 17), ((2444239 : ℚ) + 43217 / 86400, 18),
          ((2444786 : ℚ) + 43218 / 86400, 19), ((2445151 : ℚ) + 43219 / 86400, 20),
          ((2445516 : ℚ) + 43220 / 86400, 21), ((2446247 : ℚ) + 43221 / 86400, 22),
          ((2447161 : ℚ) + 43222 / 86400, 23), ((2447892 : ℚ) + 43223 / 86400, 24),
          ((2448257 : ℚ) + 43224 / 86400, 25), ((2448804 : ℚ) + 43225 / 86400, 26),
          ((2449169 : ℚ) + 43226 / 86400, 27), ((2449534 : ℚ) + 43227 / 86400, 28),
          ((2450083 : ℚ) + 43228 / 86400, 29), ((2450630 : ℚ) + 43229 / 86400, 30),
          ((2451179 : ℚ) + 43230 / 86400, 31), ((2453736 : ℚ) + 43231 / 86400, 32),
          ((2454832 : ℚ) + 43232 / 86400, 33), ((2456109 : ℚ) + 43233 / 86400, 34),
          ((2457204 : ℚ) + 43234 / 86400, 35), ((2457754 : ℚ) + 43235 / 86400, 36)]).getLast?
          = some ((2457754 : ℚ) + 43235 / 86400, (36 : Int)) := rfl
    rw [hlast]
    have hmin : min (lsExpires - ((2457754 : ℚ) + 43235 / 86400)) 2 = 2 := by
      rw [lsExpires_eval]
      norm_num
    simp only [hmin, lsExpires_eval]
    norm_num
  · rw [lsExpires_eval]
    exact lt_irrefl _
  · rw [lsExpires_eval]
    unfold lsStarts
    rw [jdn_1972_1_1]
    norm_num

/-- **C8.** The calibration constant `c2` makes the extrapolation continuous
at the table expiry: `estimate(expires) + c2` equals `DATES.len() + 10 = 37`
seconds, which is exactly the tabulated cumulative offset in effect at the
expiry instant (the initial 10 s plus one second per leap-second entry), as
the tabulated branch of `Ut::convert` at the expiry instant subtracts
exactly `37/86400` days.  This holds for every value of the abstracted
cosine term. -/
theorem c2_continuity (cosTerm : ℚ → ℚ) :
    estimateOfTai cosTerm lsExpires + ls_c2 cosTerm = 37 ∧
      (leapSecondDATES.length : ℚ) + 10 = 37 ∧
      utConvert cosTerm lsExpires = some (lsExpires - 37 / 86400) := by
  have hlen : (leapSecondDATES.length : ℚ) = 27 := by norm_num [leapSecondDATES]
  refine ⟨?_, by rw [hlen]; norm_num, utConvert_at_expiry cosTerm⟩
  unfold ls_c2
  rw [hlen]
  ring

/-! ## `src/chinese/mod.rs`

The ephemeris table itself (`data/TDBtimes.txt`, parsed by
`src/chinese/ephemeris.rs`) is an external data file, and `Annus::new`
converts every instant it uses to a Beijing-time civil date with `date_cst`
before doing anything with it.  Construction and queries depend on the
instants only through those converted dates, so the embedding takes the
converted dates as the ephemeris record: `Ephemeris.solarTerm` holds
`date_cst(solar_term[i])` for `i < 25` and `Ephemeris.newMoon` holds
`date_cst(moon_phase[i][0])` for `i < 15` (the fixed array lengths of the
Rust record are carried as invariants). -/

/-- `chinese::Month` (`src/chinese/mod.rs:49-52`). -/
inductive Month where
  | common (n : Nat)
  | leap (n : Nat)
deriving DecidableEq, Repr

/-- `Month::num` (`src/chinese/mod.rs:55-60`). -/
def Month.num : Month → Nat
  | .common n => n
  | .leap n => n

/-- `Month::is_leap` (`src/chinese/mod.rs:62-64`). -/
def Month.isLeap : Month → Bool
  | .common _ => false
  | .leap _ => true

/-- `chinese::NewMoon` (`src/chinese/mod.rs:41-46`), the date as a plain day
number. -/
structure NewMoon where
  month : Month
  date : Nat
deriving DecidableEq, Repr

instance : Inhabited NewMoon := ⟨⟨.common 0, 0⟩⟩

/-- One sui's `ephemeris::Annus` record (`src/chinese/ephemeris.rs:13-20`)
with all instants already converted by `date_cst`: 25 solar-term dates and
the 15 new-moon dates `moon_phase[i][0]`.  The lengths are type invariants in
Rust (`[Tdb; 25]`, `[[Tdb; 4]; 15]`). -/
structure Ephemeris where
  solarTerm : List Nat
  newMoon : List Nat
  solarTerm_len : solarTerm.length = 25
  newMoon_len : newMoon.length = 15

/-- `chinese::Annus` (`src/chinese/mod.rs:31-38`). -/
structure Annus where
  annus : Int
  ephemeris : Ephemeris
  months : List NewMoon

/-- `Vec::partition_point(pred)` on a list that is partitioned for `pred`
(all elements satisfying `pred` first — the code only calls it on sorted date
lists): the number of leading elements satisfying `pred`. -/
def partitionPoint (pred : Nat → Bool) (l : List Nat) : Nat :=
  (l.takeWhile pred).length

/-- The first converted solar-term date, `date_cst(solar_term[0])` — the
winter solstice opening the sui (`src/chinese/mod.rs:92`). -/
def wsDate (eph : Ephemeris) : Nat := eph.solarTerm.getD 0 0

/-- The last converted solar-term date, `date_cst(solar_term[24])` — the
winter solstice closing the sui (`src/chinese/mod.rs:93`). -/
def wsNextDate (eph : Ephemeris) : Nat := eph.solarTerm.getD 24 0

/-- `m11_idx` (`src/chinese/mod.rs:94`): `partition_point(date <= ws) - 1`. -/
def m11Idx (eph : Ephemeris) : Nat :=
  partitionPoint (fun date => date ≤ wsDate eph) eph.newMoon - 1

/-- `m11n_idx` (`src/chinese/mod.rs:95`): `partition_point(date < ws_next) - 1`. -/
def m11nIdx (eph : Ephemeris) : Nat :=
  partitionPoint (fun date => date < wsNextDate eph) eph.newMoon - 1

/-- `m11n_idx - m11_idx` (`src/chinese/mod.rs:96`): the number of lunar
months between the two bounding winter solstices. -/
def suiMonthSpan (eph : Ephemeris) : Nat := m11nIdx eph - m11Idx eph

/-- The month-building loop of `Annus::new` (`src/chinese/mod.rs:102-120`),
one step per index `i` of `m11_idx..=m11n_idx`.  The running state is the
current `month` number, the next expected principal-term index `term` and the
pending `needs_leap` flag; the result also returns the final `needs_leap`
(inspected by the trailing `assert!`).  `none` models the out-of-bounds
panics on `new_moon_dates[i + 1]` / `solar_term[term]`; the `needs_leap &&`
short-circuit of the Rust condition is preserved (when `needs_leap` is false
neither index is read). -/
def buildMonths (nmd st : List Nat) : List Nat → Nat → Nat → Bool →
    Option (List NewMoon × Bool)
  | [], _, _, needsLeap => some ([], needsLeap)
  | i :: rest, month, term, needsLeap =>
    match nmd[i]? with
    | none => none
    | some cur =>
      if needsLeap then
        match nmd[i + 1]?, st[term]? with
        | some nxt, some t =>
          if nxt ≤ t then
            match buildMonths nmd st rest month term false with
            | none => none
            | some (tl, nl) => some (⟨Month.leap month, cur⟩ :: tl, nl)
          else
            match buildMonths nmd st rest (month % 12 + 1) (term + 2) true with
            | none => none
            | some (tl, nl) => some (⟨Month.common (month % 12 + 1), cur⟩ :: tl, nl)
        | _, _ => none
      else
        match buildMonths nmd st rest (month % 12 + 1) (term + 2) false with
        | none => none
        | some (tl, nl) => some (⟨Month.common (month % 12 + 1), cur⟩ :: tl, nl)

/-- `Annus::new` (`src/chinese/mod.rs:83-128`) after the external
`ephemeris::Annus::get` lookup (the ephemeris record is a parameter here; in
Rust `None` additionally signals a missing record).  `none` models every
panic: the `usize` underflow of `partition_point(..) - 1` when a partition
point is `0`, the `panic!("{} months between winter solstices")` for a month
span other than 12/13, the out-of-bounds panics inside the loop, and the
final `assert!(!needs_leap)`. -/
def annusNew (annus : Int) (eph : Ephemeris) : Option Annus :=
  if partitionPoint (fun date => date ≤ wsDate eph) eph.newMoon = 0 ∨
      partitionPoint (fun date => date < wsNextDate eph) eph.newMoon = 0 then none
  else if suiMonthSpan eph = 12 ∨ suiMonthSpan eph = 13 then
    match buildMonths eph.newMoon eph.solarTerm
        (List.range' (m11Idx eph) (suiMonthSpan eph + 1)) 10 0
        (suiMonthSpan eph == 13) with
    | none => none
    | some (months, nl) => if nl then none else some ⟨annus, eph, months⟩
  else none

/-- `chinese::OtherAnnus` (`src/chinese/mod.rs:246-250`). -/
inductive OtherAnnus where
  | before
  | after
deriving DecidableEq, Repr

/-- `chinese::SolarTermErr` (`src/chinese/mod.rs:253-257`). -/
inductive SolarTermErr where
  | noData
  | otherAnnus (e : OtherAnnus)
deriving DecidableEq, Repr

/-- `Annus::ymd_for` (`src/chinese/mod.rs:175-198`).  On a constructed
`Annus` the `months[0]` / `months.last().unwrap()` / `take_while(..).last()
.unwrap()` accesses cannot fail (the list is non-empty and starts at or
before any date passing the `Before` guard); they are modelled with the
defaulted accessors `headI` / `getLastD`. -/
def ymdFor (a : Annus) (date : Nat) : Except OtherAnnus (Int × Month × Nat) :=
  if date < (a.months.headI).date then .error .before
  else if (a.months.getLastD default).date ≤ date then .error .after
  else
    let m := (a.months.takeWhile fun nm => nm.date ≤ date).getLastD default
    .ok (if 11 ≤ m.month.num then a.annus - 1 else a.annus, m.month,
      date - m.date + 1)

/-- `Annus::solar_term_for` (`src/chinese/mod.rs:221-242`).  `prevEph` is the
external lookup `ephemeris::Annus::get(self.annus - 1)` (again as converted
dates).  The outer `Option` is the panic channel: `none` models the
`panic!("incorrect data for annus ..")` when neither of the previous sui's
terms 23/22 starts on or before the queried date.  In the in-sui branch the
`partition_point(..) - 1` underflow cannot fire (the guard `date <
solar_term[0]` has already failed, so the first element qualifies). -/
def solarTermFor (a : Annus) (prevEph : Option Ephemeris) (date : Nat) :
    Option (Except SolarTermErr (Int × Nat × Nat)) :=
  let st := a.ephemeris.solarTerm
  if date < (a.months.headI).date then some (.error (.otherAnnus .before))
  else if st.getD 24 0 ≤ date then some (.error (.otherAnnus .after))
  else if date < st.getD 0 0 then
    match prevEph with
    | none => some (.error .noData)
    | some pe =>
      if pe.solarTerm.getD 23 0 ≤ date then
        some (.ok (a.annus - 1, (23 + 21) % 24 + 1, date - pe.solarTerm.getD 23 0))
      else if pe.solarTerm.getD 22 0 ≤ date then
        some (.ok (a.annus - 1, (22 + 21) % 24 + 1, date - pe.solarTerm.getD 22 0))
      else none
  else
    let idx := partitionPoint (fun t => t ≤ date) (st.take 24) - 1
    some (.ok (a.annus, (idx + 21) % 24 + 1, date - st.getD idx 0))

/-- `chinese::sexagenary_for_year` (`src/chinese/mod.rs:273-275`). -/
def sexagenaryForYear (year : Int) : Nat :=
  ((year.emod 60).toNat + 2696) % 60 + 1

/-! ### Claim C1: month count and leap count -/

/-- The loop consumes the `needs_leap` flag into at most one `Leap` entry:
the number of leap entries produced plus the final flag equals the initial
flag. -/
theorem buildMonths_countP (nmd st : List Nat) (idxs : List Nat) :
    ∀ (month term : Nat) (nlIn : Bool) (ms : List NewMoon) (nlOut : Bool),
      buildMonths nmd st idxs month term nlIn = some (ms, nlOut) →
      ms.countP (fun nm => nm.month.isLeap) + (if nlOut then 1 else 0)
        = if nlIn then 1 else 0 := by
  induction idxs with
  | nil =>
    intro month term nlIn ms nlOut h
    simp only [buildMonths, Option.some.injEq, Prod.mk.injEq] at h
    obtain ⟨h1, h2⟩ := h
    subst h1
    subst h2
    simp
  | cons i rest ih =>
    intro month term nlIn ms nlOut h
    simp only [buildMonths] at h
    split at h
    · exact absurd h (by simp)
    · split at h
      · rename_i hnl
        subst hnl
        split at h
        · split at h
          · split at h
            · exact absurd h (by simp)
            · rename_i tl nl htl
              simp only [Option.some.injEq, Prod.mk.injEq] at h
              obtain ⟨h1, h2⟩ := h
              subst h1
              subst h2
              have hih := ih _ _ _ _ _ htl
              cases nl <;> simp_all [List.countP_cons, Month.isLeap]
          · split at h
            · exact absurd h (by simp)
            · rename_i tl nl htl
              simp only [Option.some.injEq, Prod.mk.injEq] at h
              obtain ⟨h1, h2⟩ := h
              subst h1
              subst h2
              have hih := ih _ _ _ _ _ htl
              cases nl <;> simp_all [List.countP_cons, Month.isLeap]
        · exact absurd h (by simp)
      · rename_i hnl
        have hnl2 : nlIn = false := by simpa using hnl
        subst hnl2
        split at h
        · exact absurd h (by simp)
        · rename_i tl nl htl
          simp only [Option.some.injEq, Prod.mk.injEq] at h
          obtain ⟨h1, h2⟩ := h
          subst h1
          subst h2
          have hih := ih _ _ _ _ _ htl
          cases nl <;> simp_all [List.countP_cons, Month.isLeap]

/-- Inversion of a successful `Annus::new`: the record fields, the loop call
that produced `months` (with the leap flag consumed), the 12/13 month span
and the non-underflow of both partition points. -/
theorem annusNew_inv (annus : Int) (eph : Ephemeris) (a : Annus)
    (h : annusNew annus eph = some a) :
    a.annus = annus ∧ a.ephemeris = eph ∧
      buildMonths eph.newMoon eph.solarTerm
        (List.range' (m11Idx eph) (suiMonthSpan eph + 1)) 10 0
        (suiMonthSpan eph == 13) = some (a.months, false) ∧
      (suiMonthSpan eph = 12 ∨ suiMonthSpan eph = 13) ∧
      partitionPoint (fun date => date ≤ wsDate eph) eph.newMoon ≠ 0 ∧
      partitionPoint (fun date => date < wsNextDate eph) eph.newMoon ≠ 0 := by
  unfold annusNew at h
  split at h
  · exact absurd h (by simp)
  · rename_i hpp
    split at h
    · rename_i hspan
      split at h
      · exact absurd h (by simp)
      · rename_i months nl hbm
        split at h
        · exact absurd h (by simp)
        · rename_i hnl
          simp only [Option.some.injEq] at h
          subst h
          simp only [Bool.not_eq_true] at hnl
          subst hnl
          push_neg at hpp
          exact ⟨rfl, rfl, hbm, hspan, hpp.1, hpp.2⟩
    · exact absurd h (by simp)

/-- **C1.** Whenever `Annus::new` returns a sui, the number of lunar months
between the bounding winter solstices (`m11n_idx - m11_idx`) is 12 or 13;
with 13 months exactly one entry of the months list is `Leap`, with 12 none
is; any other month span makes construction abort (the
`panic!("{} months between winter solstices")` fatal fault) instead of
returning a value. -/
theorem annusNew_span_leap (annus : Int) (eph : Ephemeris) :
    (∀ a, annusNew annus eph = some a →
      (suiMonthSpan eph = 12 ∧ a.months.countP (fun nm => nm.month.isLeap) = 0) ∨
        (suiMonthSpan eph = 13 ∧ a.months.countP (fun nm => nm.month.isLeap) = 1)) ∧
    (suiMonthSpan eph ≠ 12 → suiMonthSpan eph ≠ 13 → annusNew annus eph = none) := by
  constructor
  · intro a h
    obtain ⟨-, -, hbm, hspan, -, -⟩ := annusNew_inv annus eph a h
    have hcount := buildMonths_countP _ _ _ _ _ _ _ _ hbm
    rcases hspan with h12 | h13
    · left
      refine ⟨h12, ?_⟩
      rw [h12] at hcount
      simpa using hcount
    · right
      refine ⟨h13, ?_⟩
      rw [h13] at hcount
      simpa using hcount
  · intro h12 h13
    unfold annusNew
    split
    · rfl
    · rw [if_neg (by tauto)]

/-- A concrete well-formed ephemeris with a 12-month sui: solar terms every
15 days from day 100 (so terms 0 and 24 fall on days 100 and 460), new moons
every 30 days from day 95. -/
def ephW12 : Ephemeris := ⟨List.range' 100 25 15, List.range' 95 15 30, rfl, rfl⟩

/-- A concrete well-formed ephemeris with a 13-month sui (new moons every 28
days): the walk inserts `Leap(10)` at position 12. -/
def ephW13 : Ephemeris := ⟨List.range' 100 25 15, List.range' 95 15 28, rfl, rfl⟩

/-- The sui `Annus::new(2000)` builds from `ephW12`. -/
def annusW12 : Annus := (annusNew 2000 ephW12).getD ⟨0, ephW12, []⟩

/-- The sui `Annus::new(2017)` builds from `ephW13`. -/
def annusW13 : Annus := (annusNew 2017 ephW13).getD ⟨0, ephW13, []⟩

theorem annusNew_ephW12 : annusNew 2000 ephW12 = some annusW12 := rfl

theorem annusNew_ephW13 : annusNew 2017 ephW13 = some annusW13 := rfl

/-- **C1 witness.** The invariant evaluated on the concrete 12-month sui. -/
theorem annusNew_span_leap_witness :
    (suiMonthSpan ephW12 = 12 ∧
        annusW12.months.countP (fun nm => nm.month.isLeap) = 0) ∨
      (suiMonthSpan ephW12 = 13 ∧
        annusW12.months.countP (fun nm => nm.month.isLeap) = 1) :=
  (annusNew_span_leap 2000 ephW12).1 annusW12 annusNew_ephW12

/-! ### Structure of the built month list -/

/-- Each built entry's date is the new moon at its index. -/
theorem buildMonths_dates (nmd st : List Nat) (idxs : List Nat) :
    ∀ (month term : Nat) (nlIn : Bool) (ms : List NewMoon) (nlOut : Bool),
      buildMonths nmd st idxs month term nlIn = some (ms, nlOut) →
      List.Forall₂ (fun i (nm : NewMoon) => nmd[i]? = some nm.date) idxs ms := by
  induction idxs with
  | nil =>
    intro month term nlIn ms nlOut h
    simp only [buildMonths, Option.some.injEq, Prod.mk.injEq] at h
    obtain ⟨h1, h2⟩ := h
    subst h1
    exact List.Forall₂.nil
  | cons i rest ih =>
    intro month term nlIn ms nlOut h
    simp only [buildMonths] at h
    split at h
    · exact absurd h (by simp)
    · rename_i cur hcur
      split at h
      · split at h
        · split at h
          · split at h
            · exact absurd h (by simp)
            · rename_i tl nl htl
              simp only [Option.some.injEq, Prod.mk.injEq] at h
              obtain ⟨h1, h2⟩ := h
              subst h1
              exact List.Forall₂.cons hcur (ih _ _ _ _ _ htl)
          · split at h
            · exact absurd h (by simp)
            · rename_i tl nl htl
              simp only [Option.some.injEq, Prod.mk.injEq] at h
              obtain ⟨h1, h2⟩ := h
              subst h1
              exact List.Forall₂.cons hcur (ih _ _ _ _ _ htl)
        · exact absurd h (by simp)
      · split at h
        · exact absurd h (by simp)
        · rename_i tl nl htl
          simp only [Option.some.injEq, Prod.mk.injEq] at h
          obtain ⟨h1, h2⟩ := h
          subst h1
          exact List.Forall₂.cons hcur (ih _ _ _ _ _ htl)

/-- The months of a constructed sui are the new moons at indices
`m11_idx..=m11n_idx`. -/
theorem annusNew_months (annus : Int) (eph : Ephemeris) (a : Annus)
    (hc : annusNew annus eph = some a) :
    List.Forall₂ (fun i (nm : NewMoon) => eph.newMoon[i]? = some nm.date)
      (List.range' (m11Idx eph) (suiMonthSpan eph + 1)) a.months := by
  obtain ⟨-, -, hbm, -, -, -⟩ := annusNew_inv annus eph a hc
  exact buildMonths_dates _ _ _ _ _ _ _ _ hbm

theorem annusNew_months_length (annus : Int) (eph : Ephemeris) (a : Annus)
    (hc : annusNew annus eph = some a) :
    a.months.length = suiMonthSpan eph + 1 := by
  have h := (annusNew_months annus eph a hc).length_eq
  simpa [List.length_range'] using h.symm

theorem annusNew_months_date (annus : Int) (eph : Ephemeris) (a : Annus)
    (hc : annusNew annus eph = some a) :
    ∀ k (hk : k < a.months.length),
      eph.newMoon[m11Idx eph + k]? = some ((a.months.get ⟨k, hk⟩).date) := by
  intro k hk
  have h := annusNew_months annus eph a hc
  rw [List.forall₂_iff_get] at h
  obtain ⟨hlen, hget⟩ := h
  have hk1 : k < (List.range' (m11Idx eph) (suiMonthSpan eph + 1)).length := by
    omega
  have := hget k hk1 hk
  have hr : (List.range' (m11Idx eph) (suiMonthSpan eph + 1)).get ⟨k, hk1⟩
      = m11Idx eph + k := by
    have := List.getElem?_range' (m11Idx eph) 1
      (show k < suiMonthSpan eph + 1 by simpa [List.length_range'] using hk1)
    rw [List.get_eq_getElem, List.getElem_eq_iff]
    simpa using this
  rwa [hr] at this

/-- Adjacent entries of a `<`-sorted list, through `getElem?`. -/
theorem chain'_lt_getElem? {l : List Nat} (hl : l.Chain' (· < ·)) {i x y : Nat}
    (hx : l[i]? = some x) (hy : l[i + 1]? = some y) : x < y := by
  rw [List.getElem?_eq_some_iff] at hx hy
  obtain ⟨hi, hx⟩ := hx
  obtain ⟨hi1, hy⟩ := hy
  rw [List.chain'_iff_get] at hl
  have := hl i (by omega)
  simp only [List.get_eq_getElem] at this
  omega

/-- The months of a constructed sui are strictly sorted by date whenever the
new-moon dates are. -/
theorem annusNew_months_sorted (annus : Int) (eph : Ephemeris) (a : Annus)
    (hc : annusNew annus eph = some a)
    (hnm : eph.newMoon.Chain' (· < ·)) :
    a.months.Chain' (fun x y => x.date < y.date) := by
  rw [List.chain'_iff_get]
  intro i hi
  have h1 := annusNew_months_date annus eph a hc i (by omega)
  have h2 := annusNew_months_date annus eph a hc (i + 1) (by omega)
  rw [show m11Idx eph + (i + 1) = (m11Idx eph + i) + 1 by omega] at h2
  exact chain'_lt_getElem? hnm h1 h2

/-! ### Claim C3: `ymd_for` -/

/-- On a list sorted strictly by date, the entries with `date ≤ d` form a
prefix: `take_while` and `filter` agree. -/
theorem takeWhile_date_le_eq_filter (d : Nat) :
    ∀ (l : List NewMoon), l.Pairwise (fun x y => x.date < y.date) →
      (l.takeWhile fun nm => nm.date ≤ d) = l.filter fun nm => nm.date ≤ d := by
  intro l hl
  induction l with
  | nil => rfl
  | cons x xs ih =>
    rw [List.pairwise_cons] at hl
    obtain ⟨hx, hxs⟩ := hl
    by_cases hxd : x.date ≤ d
    · simp [List.takeWhile_cons, List.filter_cons, hxd, ih hxs]
    · have hall : (xs.filter fun nm => nm.date ≤ d) = [] := by
        rw [List.filter_eq_nil_iff]
        intro y hy
        have := hx y hy
        simp only [decide_eq_true_eq]
        omega
      simp [List.takeWhile_cons, List.filter_cons, hxd, hall]

instance : IsTrans NewMoon (fun x y => x.date < y.date) :=
  ⟨fun _ _ _ h1 h2 => Nat.lt_trans h1 h2⟩

/-- **C3.** On a constructed sui (with sorted new-moon dates), `ymd_for`
behaves exactly as specified: dates before `months[0].date` give
`Err(Before)`, dates at or beyond `months.last().date` give `Err(After)`,
and any date in between is located in the last month entry whose start is
`≤` the date, with day `date - start + 1` and the civil year `annus - 1`
exactly when the month number is `≥ 11`. -/
theorem ymdFor_spec (annus : Int) (eph : Ephemeris) (a : Annus)
    (hc : annusNew annus eph = some a)
    (hnm : eph.newMoon.Chain' (· < ·)) (d : Nat) :
    (d < (a.months.headI).date → ymdFor a d = .error .before) ∧
      ((a.months.getLastD default).date ≤ d → ymdFor a d = .error .after) ∧
      ((a.months.headI).date ≤ d → d < (a.months.getLastD default).date →
        ∃ m, (a.months.filter fun nm => nm.date ≤ d).getLast? = some m ∧
          ymdFor a d = .ok
            (if 11 ≤ m.month.num then a.annus - 1 else a.annus, m.month,
              d - m.date + 1)) := by
  have hlen := annusNew_months_length annus eph a hc
  have hsorted := annusNew_months_sorted annus eph a hc hnm
  have hne : a.months ≠ [] := by
    intro hnil
    rw [hnil] at hlen
    simp at hlen
  have hpw : a.months.Pairwise (fun x y => x.date < y.date) :=
    List.chain'_iff_pairwise.mp hsorted
  -- the first entry is ≤ the last entry
  have hhead_last : (a.months.headI).date ≤ (a.months.getLastD default).date := by
    obtain ⟨m0, rest, hcons⟩ := List.exists_cons_of_ne_nil hne
    rcases List.eq_nil_or_concat rest with hr | ⟨ys, y, hys⟩
    · subst hr
      rw [hcons]
      simp [List.getLastD]
    · subst hys
      rw [hcons]
      have hmem : y ∈ a.months := by rw [hcons]; simp
      have : m0.date < y.date ∨ m0 = y := by
        rw [hcons] at hpw
        rw [List.pairwise_cons] at hpw
        exact Or.inl (hpw.1 y (by simp))
      rcases this with h | h
      · simp only [List.headI, List.concat_eq_append, ← List.cons_append]
        rw [List.getLastD_eq_getLast?, List.getLast?_concat]
        simpa using Nat.le_of_lt h
      · subst h
        simp only [List.headI, List.concat_eq_append, ← List.cons_append]
        rw [List.getLastD_eq_getLast?, List.getLast?_concat]
        simp
  refine ⟨?_, ?_, ?_⟩
  · intro hd
    unfold ymdFor
    rw [if_pos hd]
  · intro hd
    unfold ymdFor
    rw [if_neg (by omega), if_pos hd]
  · intro hd1 hd2
    unfold ymdFor
    rw [if_neg (by omega), if_neg (by omega)]
    have htf := takeWhile_date_le_eq_filter d a.months hpw
    have hmem : a.months.headI ∈ a.months.filter fun nm => nm.date ≤ d := by
      rw [List.mem_filter]
      constructor
      · obtain ⟨m0, rest, hcons⟩ := List.exists_cons_of_ne_nil hne
        rw [hcons]
        simp [List.headI, hcons]
      · simpa using hd1
    have hfne : (a.months.filter fun nm => nm.date ≤ d) ≠ [] :=
      List.ne_nil_of_mem hmem
    obtain ⟨m, hm⟩ := Option.ne_none_iff_exists'.mp
      (mt List.getLast?_eq_none_iff.mp hfne)
    refine ⟨m, hm, ?_⟩
    rw [htf, List.getLastD_eq_getLast?, hm]
    rfl

/-- The concrete 12-month ephemeris has strictly sorted new moons. -/
theorem ephW12_sorted : ephW12.newMoon.Chain' (· < ·) := by
  rw [show ephW12.newMoon =
    [95, 125, 155, 185, 215, 245, 275, 305, 335, 365, 395, 425, 455, 485, 515]
    from rfl]
  norm_num [List.chain'_cons]

/-- **C3 witness.** `ymd_for` on the concrete 12-month sui at day 100 (inside
the sui's span). -/
theorem ymdFor_spec_witness :
    ∃ m, (annusW12.months.filter fun nm => nm.date ≤ 100).getLast? = some m ∧
      ymdFor annusW12 100 = .ok
        (if 11 ≤ m.month.num then annusW12.annus - 1 else annusW12.annus,
          m.month, 100 - m.date + 1) :=
  (ymdFor_spec 2000 ephW12 annusW12 annusNew_ephW12 ephW12_sorted 100).2.2
    (by decide) (by decide)

/-! ### Claim C9: `solar_term_for` -/

theorem headI_eq_get_zero (l : List NewMoon) (h : 0 < l.length) :
    l.headI = l.get ⟨0, h⟩ := by
  cases l with
  | nil => simp at h
  | cons a as => rfl

/-- The first month of a constructed sui starts at new moon `m11_idx`. -/
theorem annusNew_headI_date (annus : Int) (eph : Ephemeris) (a : Annus)
    (hc : annusNew annus eph = some a) :
    eph.newMoon[m11Idx eph]? = some (a.months.headI).date := by
  have hlen := annusNew_months_length annus eph a hc
  have h0 := annusNew_months_date annus eph a hc 0 (by omega)
  rw [Nat.add_zero] at h0
  rw [headI_eq_get_zero a.months (by omega)]
  exact h0

/-- The first month of a constructed sui starts on or before the opening
winter solstice: new moon `m11_idx` is inside the `take_while (≤ ws)`
prefix. -/
theorem annusNew_head_le_ws (annus : Int) (eph : Ephemeris) (a : Annus)
    (hc : annusNew annus eph = some a) :
    (a.months.headI).date ≤ wsDate eph := by
  have hhead := annusNew_headI_date annus eph a hc
  obtain ⟨-, -, -, -, hp1, -⟩ := annusNew_inv annus eph a hc
  rw [List.getElem?_eq_some_iff] at hhead
  obtain ⟨hlt, hval⟩ := hhead
  have hm11 : m11Idx eph <
      (eph.newMoon.takeWhile fun date => decide (date ≤ wsDate eph)).length := by
    have : partitionPoint (fun date => date ≤ wsDate eph) eph.newMoon =
      (eph.newMoon.takeWhile fun date => decide (date ≤ wsDate eph)).length := rfl
    unfold m11Idx
    omega
  have hpref := List.takeWhile_prefix
    (l := eph.newMoon) (fun date => decide (date ≤ wsDate eph))
  have hgetel := hpref.getElem hm11
  have hmem : eph.newMoon[m11Idx eph] ∈
      eph.newMoon.takeWhile fun date => decide (date ≤ wsDate eph) := by
    rw [← hgetel]
    exact List.getElem_mem hm11
  have hsat := List.mem_takeWhile_imp hmem
  rw [hval] at hsat
  simpa using hsat

/-- **C9.** On a constructed sui (with `≤`-sorted solar terms),
`solar_term_for` behaves exactly as specified on each region: `Err(Before)`
strictly before `months[0].date`; `Err(After)` at or beyond the date of
`solar_term[24]`; and for dates in `[months[0].date, solar_term[0].date)` it
consults the *previous* sui's terms at array indices 23 and 22 (term numbers
21 and 20), reports the year `annus - 1` and the day offset since that term
began, fails with `Err(NoData)` when the previous ephemeris record is
unavailable, and aborts (`panic!("incorrect data ..")`) if neither term
covers the date. -/
theorem solarTermFor_spec (annus : Int) (eph : Ephemeris) (a : Annus)
    (prevEph : Option Ephemeris)
    (hc : annusNew annus eph = some a)
    (hst : eph.solarTerm.Chain' (· ≤ ·)) (d : Nat) :
    (d < (a.months.headI).date →
      solarTermFor a prevEph d = some (.error (.otherAnnus .before))) ∧
      (eph.solarTerm.getD 24 0 ≤ d →
        solarTermFor a prevEph d = some (.error (.otherAnnus .after))) ∧
      ((a.months.headI).date ≤ d → d < eph.solarTerm.getD 0 0 →
        (prevEph = none → solarTermFor a prevEph d = some (.error .noData)) ∧
        (∀ pe, prevEph = some pe → solarTermFor a prevEph d =
          if pe.solarTerm.getD 23 0 ≤ d then
            some (.ok (a.annus - 1, 21, d - pe.solarTerm.getD 23 0))
          else if pe.solarTerm.getD 22 0 ≤ d then
            some (.ok (a.annus - 1, 20, d - pe.solarTerm.getD 22 0))
          else none)) := by
  have heph : a.ephemeris = eph := (annusNew_inv annus eph a hc).2.1
  have hws : (a.months.headI).date ≤ wsDate eph := annusNew_head_le_ws annus eph a hc
  have hst024 : eph.solarTerm.getD 0 0 ≤ eph.solarTerm.getD 24 0 := by
    have hlen : eph.solarTerm.length = 25 := eph.solarTerm_len
    have hpw := List.chain'_iff_pairwise.mp hst
    rw [List.pairwise_iff_get] at hpw
    have := hpw ⟨0, by omega⟩ ⟨24, by omega⟩ (by simp)
    rw [List.getD_eq_getElem _ _ (by omega), List.getD_eq_getElem _ _ (by omega)]
    simpa using this
  have hws0 : wsDate eph = eph.solarTerm.getD 0 0 := rfl
  refine ⟨?_, ?_, ?_⟩
  · intro hd
    unfold solarTermFor
    rw [if_pos hd]
  · intro hd
    unfold solarTermFor
    rw [heph]
    rw [if_neg (by omega), if_pos hd]
  · intro hd1 hd2
    constructor
    · intro hpe
      subst hpe
      unfold solarTermFor
      rw [heph]
      rw [if_neg (by omega), if_neg (by omega), if_pos hd2]
    · intro pe hpe
      subst hpe
      unfold solarTermFor
      rw [heph]
      rw [if_neg (by omega), if_neg (by omega), if_pos hd2]

/-- The concrete 12-month ephemeris has sorted solar terms. -/
theorem ephW12_st_sorted : ephW12.solarTerm.Chain' (· ≤ ·) := by
  rw [show ephW12.solarTerm =
    [100, 115, 130, 145, 160, 175, 190, 205, 220, 235, 250, 265, 280, 295, 310,
     325, 340, 355, 370, 385, 400, 415, 430, 445, 460] from rfl]
  norm_num [List.chain'_cons]

/-- A concrete "previous sui" ephemeris whose terms 22 and 23 start on days
90 and 96. -/
def ephPrevW : Ephemeris :=
  ⟨List.range' 0 22 ++ [90, 96, 100], List.range' 0 15, by simp, rfl⟩

/-- **C9 witness.** `solar_term_for` on the concrete sui at day 97, which
lies between the sui's first month (day 95) and its first solstice
(day 100): the previous sui's term 23 (day 96) answers. -/
theorem solarTermFor_spec_witness :
    solarTermFor annusW12 (some ephPrevW) 97 =
      if ephPrevW.solarTerm.getD 23 0 ≤ 97 then
        some (.ok (annusW12.annus - 1, 21, 97 - ephPrevW.solarTerm.getD 23 0))
      else if ephPrevW.solarTerm.getD 22 0 ≤ 97 then
        some (.ok (annusW12.annus - 1, 20, 97 - ephPrevW.solarTerm.getD 22 0))
      else none :=
  ((solarTermFor_spec 2000 ephW12 annusW12 (some ephPrevW) annusNew_ephW12
    ephW12_st_sorted 97).2.2 (by decide) (by decide)).2 ephPrevW rfl

/-! ### Claim C2: the leap-month rule -/

/-- With the flag already consumed, the rest of the walk emits only common
months and the flag stays consumed. -/
theorem buildMonths_false_common (nmd st : List Nat) (idxs : List Nat) :
    ∀ (month term : Nat) (ms : List NewMoon) (nlOut : Bool),
      buildMonths nmd st idxs month term false = some (ms, nlOut) →
      nlOut = false ∧ ∀ nm ∈ ms, nm.month.isLeap = false := by
  induction idxs with
  | nil =>
    intro month term ms nlOut h
    simp only [buildMonths, Option.some.injEq, Prod.mk.injEq] at h
    obtain ⟨h1, h2⟩ := h
    subst h1
    exact ⟨h2.symm, by simp⟩
  | cons i rest ih =>
    intro month term ms nlOut h
    simp only [buildMonths] at h
    split at h
    · exact absurd h (by simp)
    · rename_i cur hcur
      rw [if_neg (by simp)] at h
      split at h
      · exact absurd h (by simp)
      · rename_i tl nl htl
        simp only [Option.some.injEq, Prod.mk.injEq] at h
        obtain ⟨h1, h2⟩ := h
        subst h1
        subst h2
        obtain ⟨hnl, hcom⟩ := ih _ _ _ _ htl
        refine ⟨hnl, ?_⟩
        intro nm hnm
        rcases List.mem_cons.mp hnm with h | h
        · subst h
          rfl
        · exact hcom nm h

/-- Characterization of a successful 13-month walk: there is a unique
position `ℓ` marked `Leap`; the end-on-or-before-term test failed at every
position before `ℓ` and passed at `ℓ`; and the leap entry carries the number
of the walk at `ℓ` (the number of the immediately preceding common entry when
`ℓ ≥ 1`). -/
theorem buildMonths_leap_char (nmd st : List Nat) :
    ∀ (n s mo te : Nat) (ms : List NewMoon),
      buildMonths nmd st (List.range' s n) mo te true = some (ms, false) →
      ∃ ℓ, ℓ < n ∧
        (∀ k, k < ℓ → ∃ nxt t, nmd[s + k + 1]? = some nxt ∧
          st[te + 2 * k]? = some t ∧ t < nxt) ∧
        (∃ nxt t, nmd[s + ℓ + 1]? = some nxt ∧ st[te + 2 * ℓ]? = some t ∧
          nxt ≤ t) ∧
        (∀ k nm, ms[k]? = some nm → (nm.month.isLeap = true ↔ k = ℓ)) ∧
        (∃ nmL, ms[ℓ]? = some nmL ∧
          (ℓ = 0 → nmL.month = .leap mo) ∧
          (∀ p, ℓ = p + 1 → ∃ nmP, ms[p]? = some nmP ∧
            nmL.month = .leap nmP.month.num)) := by
  intro n
  induction n with
  | zero =>
    intro s mo te ms h
    simp only [List.range', buildMonths, Option.some.injEq, Prod.mk.injEq] at h
    exact absurd h.2 (by simp)
  | succ n ihn =>
    intro s mo te ms h
    rw [List.range'_succ] at h
    simp only [buildMonths] at h
    split at h
    · exact absurd h (by simp)
    · rename_i cur hcur
      rw [if_pos trivial] at h
      split at h
      · rename_i nxt t hnxt ht
        split at h
        · rename_i hle
          -- leap taken at this position: ℓ = 0
          split at h
          · exact absurd h (by simp)
          · rename_i tl nl htl
            simp only [Option.some.injEq, Prod.mk.injEq] at h
            obtain ⟨h1, h2⟩ := h
            subst h1
            obtain ⟨-, hcom⟩ := buildMonths_false_common nmd st _ _ _ _ _ htl
            refine ⟨0, by omega, by omega, ⟨nxt, t, by simpa using hnxt,
              by simpa using ht, hle⟩, ?_, ?_⟩
            · intro k nm hk
              cases k with
              | zero =>
                simp only [List.getElem?_cons_zero, Option.some.injEq] at hk
                subst hk
                simp [Month.isLeap]
              | succ k =>
                simp only [List.getElem?_cons_succ] at hk
                have hmem : nm ∈ tl := by
                  obtain ⟨hlt, hval⟩ := List.getElem?_eq_some_iff.mp hk
                  exact hval ▸ List.getElem_mem hlt
                have := hcom nm hmem
                constructor
                · intro hleap
                  rw [this] at hleap
                  exact absurd hleap (by simp)
                · intro hk0
                  exact absurd hk0 (by omega)
            · refine ⟨⟨Month.leap mo, cur⟩, by simp, fun _ => rfl, ?_⟩
              intro p hp
              exact absurd hp (by omega)
        · rename_i hgt
          -- common step, leap still pending: recurse
          split at h
          · exact absurd h (by simp)
          · rename_i tl nl htl
            simp only [Option.some.injEq, Prod.mk.injEq] at h
            obtain ⟨h1, h2⟩ := h
            subst h1
            subst h2
            obtain ⟨ℓ, hℓn, hfail, hpass, huniq, nmL, hnmL, hL0, hLp⟩ :=
              ihn (s + 1) (mo % 12 + 1) (te + 2) tl htl
            refine ⟨ℓ + 1, by omega, ?_, ?_, ?_, ?_⟩
            · intro k hk
              cases k with
              | zero =>
                refine ⟨nxt, t, by simpa using hnxt, by simpa using ht,
                  by omega⟩
              | succ k =>
                obtain ⟨nxt', t', h1, h2, h3⟩ := hfail k (by omega)
                refine ⟨nxt', t', ?_, ?_, h3⟩
                · rw [show s + (k + 1) + 1 = s + 1 + k + 1 by omega]
                  exact h1
                · rw [show te + 2 * (k + 1) = te + 2 + 2 * k by omega]
                  exact h2
            · obtain ⟨nxt', t', h1, h2, h3⟩ := hpass
              refine ⟨nxt', t', ?_, ?_, h3⟩
              · rw [show s + (ℓ + 1) + 1 = s + 1 + ℓ + 1 by omega]
                exact h1
              · rw [show te + 2 * (ℓ + 1) = te + 2 + 2 * ℓ by omega]
                exact h2
            · intro k nm hk
              cases k with
              | zero =>
                simp only [List.getElem?_cons_zero, Option.some.injEq] at hk
                subst hk
                simp [Month.isLeap]
              | succ k =>
                simp only [List.getElem?_cons_succ] at hk
                have := huniq k nm hk
                constructor
                · intro hleap
                  have := this.mp hleap
                  omega
                · intro hke
                  exact this.mpr (by omega)
            · refine ⟨nmL, by simpa using hnmL, by omega, ?_⟩
              intro p hp
              cases p with
              | zero =>
                have h0 : ℓ = 0 := by omega
                refine ⟨⟨Month.common (mo % 12 + 1), cur⟩, by simp, ?_⟩
                have := hL0 h0
                simpa [Month.num] using this
              | succ p =>
                obtain ⟨nmP, hP1, hP2⟩ := hLp p (by omega)
                exact ⟨nmP, by simpa using hP1, hP2⟩
      · exact absurd h (by simp)

/-- If the end-on-or-before-term test never passes, the walk never consumes
the leap flag. -/
theorem buildMonths_no_pass (nmd st : List Nat) :
    ∀ (n s mo te : Nat) (ms : List NewMoon) (nl : Bool),
      buildMonths nmd st (List.range' s n) mo te true = some (ms, nl) →
      (∀ k nxt t, nmd[s + k + 1]? = some nxt → st[te + 2 * k]? = some t →
        ¬ nxt ≤ t) →
      nl = true := by
  intro n
  induction n with
  | zero =>
    intro s mo te ms nl h hfail
    simp only [List.range', buildMonths, Option.some.injEq, Prod.mk.injEq] at h
    exact h.2.symm
  | succ n ihn =>
    intro s mo te ms nl h hfail
    rw [List.range'_succ] at h
    simp only [buildMonths] at h
    split at h
    · exact absurd h (by simp)
    · rename_i cur hcur
      rw [if_pos trivial] at h
      split at h
      · rename_i nxt t hnxt ht
        split at h
        · rename_i hle
          exact absurd hle (hfail 0 nxt t (by simpa using hnxt) (by simpa using ht))
        · split at h
          · exact absurd h (by simp)
          · rename_i tl nl' htl
            simp only [Option.some.injEq, Prod.mk.injEq] at h
            obtain ⟨h1, h2⟩ := h
            subst h2
            refine ihn (s + 1) (mo % 12 + 1) (te + 2) tl nl' htl ?_
            intro k nxt' t' h1' h2'
            refine hfail (k + 1) nxt' t' ?_ ?_
            · rw [show s + (k + 1) + 1 = s + 1 + k + 1 by omega]
              exact h1'
            · rw [show te + 2 * (k + 1) = te + 2 + 2 * k by omega]
              exact h2'
      · exact absurd h (by simp)

/-- The element just past the `takeWhile` prefix (if any) fails the
predicate. -/
theorem takeWhile_stop (pred : Nat → Bool) :
    ∀ (l : List Nat) (x : Nat),
      l[(l.takeWhile pred).length]? = some x → pred x = false := by
  intro l
  induction l with
  | nil =>
    intro x h
    simp at h
  | cons a as ih =>
    intro x h
    by_cases hp : pred a
    · rw [List.takeWhile_cons, if_pos hp] at h
      simpa using ih x (by simpa using h)
    · rw [List.takeWhile_cons, if_neg hp] at h
      simp only [List.length_nil, List.getElem?_cons_zero, Option.some.injEq] at h
      subst h
      simpa using hp

/-- **C2.** In a 13-month sui built by `Annus::new`, walking forward from the
eleventh month there is a unique leap position `ℓ`: the first position whose
month end (the next new-moon date) falls on or before the next expected
principal term (the solar term of index `2k` at position `k`); it is at least
1, and it is marked `Leap(n)` with exactly the number `n` of the immediately
preceding common month.  If the test never passes, `Annus::new` aborts
(`assert!(!needs_leap)` or an out-of-bounds `solar_term[term]`) and returns
nothing. -/
theorem annusNew_leap_rule (annus : Int) (eph : Ephemeris)
    (hspan : suiMonthSpan eph = 13) :
    (∀ a, annusNew annus eph = some a →
      ∃ ℓ, 1 ≤ ℓ ∧ ℓ < a.months.length ∧
        (∀ k nm, a.months[k]? = some nm → (nm.month.isLeap = true ↔ k = ℓ)) ∧
        (∃ nmL nmP, a.months[ℓ]? = some nmL ∧ a.months[ℓ - 1]? = some nmP ∧
          nmP.month.isLeap = false ∧ nmL.month = .leap nmP.month.num) ∧
        (∀ k, k < ℓ → ∃ nxt t, eph.newMoon[m11Idx eph + k + 1]? = some nxt ∧
          eph.solarTerm[2 * k]? = some t ∧ t < nxt) ∧
        (∃ nxt t, eph.newMoon[m11Idx eph + ℓ + 1]? = some nxt ∧
          eph.solarTerm[2 * ℓ]? = some t ∧ nxt ≤ t)) ∧
    ((∀ k nxt t, eph.newMoon[m11Idx eph + k + 1]? = some nxt →
        eph.solarTerm[2 * k]? = some t → ¬ nxt ≤ t) →
      annusNew annus eph = none) := by
  constructor
  · intro a hc
    obtain ⟨-, -, hbm, -, hp1, -⟩ := annusNew_inv annus eph a hc
    rw [hspan] at hbm
    have hlen := annusNew_months_length annus eph a hc
    rw [hspan] at hlen
    have hflag : ((13 : Nat) == 13) = true := rfl
    rw [hflag] at hbm
    obtain ⟨ℓ, hℓn, hfail, hpass, huniq, nmL, hnmL, hL0, hLp⟩ :=
      buildMonths_leap_char eph.newMoon eph.solarTerm (13 + 1) (m11Idx eph)
        10 0 a.months hbm
    -- ℓ = 0 is impossible: the new moon after `m11_idx` is past the
    -- winter solstice (it is the element just past the take_while prefix),
    -- but solar term 0 *is* the winter solstice.
    have hℓ0 : ℓ ≠ 0 := by
      intro h0
      subst h0
      obtain ⟨nxt, t, hnxt, ht, hle⟩ := hpass
      have ht0 : t = wsDate eph := by
        rw [List.getElem?_eq_some_iff] at ht
        obtain ⟨hlt, hval⟩ := ht
        unfold wsDate
        rw [List.getD_eq_getElem _ _ (by omega)]
        simpa using hval.symm
      have hstop := takeWhile_stop (fun date => decide (date ≤ wsDate eph))
        eph.newMoon nxt (by
          have hm11 : m11Idx eph + 0 + 1 =
              (eph.newMoon.takeWhile fun date => decide (date ≤ wsDate eph)).length := by
            have hpp : partitionPoint (fun date => date ≤ wsDate eph) eph.newMoon =
              (eph.newMoon.takeWhile fun date => decide (date ≤ wsDate eph)).length := rfl
            unfold m11Idx
            omega
          rw [← hm11]
          exact hnxt)
      rw [ht0] at hle
      simp only [decide_eq_false_iff_not] at hstop
      exact hstop hle
    refine ⟨ℓ, by omega, by omega, huniq, ?_, by simpa using hfail,
      by simpa using hpass⟩
    obtain ⟨p, hp⟩ := Nat.exists_eq_succ_of_ne_zero hℓ0
    obtain ⟨nmP, hP1, hP2⟩ := hLp p hp
    refine ⟨nmL, nmP, hnmL, by rw [hp]; simpa using hP1, ?_, hP2⟩
    have := (huniq p nmP hP1).mpr
    by_cases hleap : nmP.month.isLeap = true
    · have := (huniq p nmP hP1).mp hleap
      omega
    · simpa using hleap
  · intro hfail
    unfold annusNew
    split
    · rfl
    · rename_i hpp
      rw [if_pos (Or.inr hspan)]
      rw [hspan]
      have hflag : ((13 : Nat) == 13) = true := rfl
      rw [hflag]
      split
      · rfl
      · rename_i months nl hbm
        have := buildMonths_no_pass eph.newMoon eph.solarTerm (13 + 1)
          (m11Idx eph) 10 0 months nl hbm (by simpa using hfail)
        subst this
        rfl

/-- **C2 witness.** The leap rule evaluated on the concrete 13-month sui
(where `Leap(10)` sits at position 12). -/
theorem annusNew_leap_rule_witness :
    ∃ ℓ, 1 ≤ ℓ ∧ ℓ < annusW13.months.length ∧
      (∀ k nm, annusW13.months[k]? = some nm →
        (nm.month.isLeap = true ↔ k = ℓ)) ∧
      (∃ nmL nmP, annusW13.months[ℓ]? = some nmL ∧
        annusW13.months[ℓ - 1]? = some nmP ∧
        nmP.month.isLeap = false ∧ nmL.month = .leap nmP.month.num) ∧
      (∀ k, k < ℓ → ∃ nxt t, ephW13.newMoon[m11Idx ephW13 + k + 1]? = some nxt ∧
        ephW13.solarTerm[2 * k]? = some t ∧ t < nxt) ∧
      (∃ nxt t, ephW13.newMoon[m11Idx ephW13 + ℓ + 1]? = some nxt ∧
        ephW13.solarTerm[2 * ℓ]? = some t ∧ nxt ≤ t) :=
  (annusNew_leap_rule 2017 ephW13 (by decide)).1 annusW13 annusNew_ephW13

/-- **C7 witness.** `date_arith_overflow`'s in-range clause at a concrete
input. -/
theorem date_arith_overflow_witness : dateAddUnsigned 100 28 = 128 :=
  date_arith_overflow.2.2.2 100 28 (by norm_num)

/-! ### Claim C5: ISO-8601 week numbering -/

/-- `YearType::from_gregorian(..).is_leap()` (`src/date.rs:183-196`), as a
Boolean (`%` on `i32` truncates: `Int.tmod`). -/
def isLeapYear (year : Int) : Bool :=
  (Int.tmod year 4 == 0 && Int.tmod year 100 != 0) || Int.tmod year 400 == 0

/-- `ordinal_day_number` (`src/date.rs:198-204`). -/
def ordinalDayNumber (month day : Int) (leap : Bool) : Int :=
  day + (if month = 1 then 0
    else if month = 2 then 31
    else 59 + Int.tdiv (153 * (month - 3) + 2) 5 + (if leap then 1 else 0))

/-- The `y_is_leap` intermediate of `year_week_gregorian`
(`src/date.rs:131-132`). -/
def ywg_leap (jdn : Nat) : Int := if isLeapYear (greg_year jdn) then 1 else 0

/-- The `dn` intermediate of `year_week_gregorian` (`src/date.rs:133`). -/
def ywg_dn (jdn : Nat) : Int :=
  ordinalDayNumber (greg_month jdn) (greg_day jdn) (isLeapYear (greg_year jdn))

/-- The `dow1` intermediate of `year_week_gregorian` (`src/date.rs:134-135`):
the weekday of January 1 (`rem_euclid` on `i32` is `Int.emod`). -/
def ywg_dow1 (jdn : Nat) : Int :=
  (((dayOfWeek jdn : Nat) : Int) - ywg_dn jdn) % 7 + 1

/-- The `dow_last` intermediate of `year_week_gregorian`
(`src/date.rs:144`): the weekday of December 31. -/
def ywg_dowLast (jdn : Nat) : Int :=
  (ywg_dow1 jdn + 364 + ywg_leap jdn - 1) % 7 + 1

/-- `Date::year_week_gregorian` (`src/date.rs:129-150`); the final `/` is
truncating `i32` division. -/
def yearWeekGregorian (jdn : Nat) : Int × Int :=
  if ywg_dow1 jdn > 4 ∧ ywg_dow1 jdn - 1 + ywg_dn jdn ≤ 7 then
    if ywg_dow1 jdn < 6 then (greg_year jdn - 1, 53)
    else if ywg_dow1 jdn = 6 then
      (greg_year jdn - 1, 52 + (if isLeapYear (greg_year jdn - 1) then 1 else 0))
    else (greg_year jdn - 1, 52)
  else
    if ywg_dowLast jdn < 4 ∧
        365 + ywg_leap jdn + 1 - ywg_dn jdn ≤ ywg_dowLast jdn then
      (greg_year jdn + 1, 1)
    else
      (greg_year jdn,
        Int.tdiv (ywg_dow1 jdn + ywg_dn jdn - 2) 7 +
          (if ywg_dow1 jdn ≤ 4 then 1 else 0))

/-- The Thursday of the Monday–Sunday week containing the date. -/
def iso_th (jdn : Nat) : Int := (jdn : Int) + 4 - ((dayOfWeek jdn : Nat) : Int)

/-- The ISO-8601 week rule stated from first principles, as the
specification side of claim C5: "week 1 is the Monday–Sunday week containing
the year's first Thursday", hence the ISO year of a date is the calendar
year of the Thursday of the date's week, and the week number is the index of
that Thursday among its year's Thursdays, `(ordinal(thursday) + 6) / 7`.
Built only from the date kernel (`gregorian`, `day_of_week`,
`ordinal_day_number`), independently of `year_week_gregorian`'s branches. -/
def isoWeekSpec (jdn : Nat) : Int × Int :=
  (greg_year (iso_th jdn),
    (ordinalDayNumber (greg_month (iso_th jdn)) (greg_day (iso_th jdn))
      (isLeapYear (greg_year (iso_th jdn))) + 6) / 7)

/-- The code's leap-year test, translated to euclidean remainders. -/
theorem isLeapYear_iff (y : Int) :
    isLeapYear y = true ↔ (y % 4 = 0 ∧ y % 100 ≠ 0) ∨ y % 400 = 0 := by
  have h4 : Int.tmod y 4 = 0 ↔ y % 4 = 0 :=
    ⟨fun h => Int.emod_eq_zero_of_dvd (Int.dvd_of_tmod_eq_zero h),
     fun h => Int.tmod_eq_zero_of_dvd (Int.dvd_of_emod_eq_zero h)⟩
  have h100 : Int.tmod y 100 = 0 ↔ y % 100 = 0 :=
    ⟨fun h => Int.emod_eq_zero_of_dvd (Int.dvd_of_tmod_eq_zero h),
     fun h => Int.tmod_eq_zero_of_dvd (Int.dvd_of_emod_eq_zero h)⟩
  have h400 : Int.tmod y 400 = 0 ↔ y % 400 = 0 :=
    ⟨fun h => Int.emod_eq_zero_of_dvd (Int.dvd_of_tmod_eq_zero h),
     fun h => Int.tmod_eq_zero_of_dvd (Int.dvd_of_emod_eq_zero h)⟩
  unfold isLeapYear
  simp only [Bool.or_eq_true, Bool.and_eq_true, beq_iff_eq, bne_iff_ne, ne_eq]
  tauto

/-- `ordinal_day_number` in euclidean-division form, for months `1..=12`. -/
theorem ordinalDayNumber_eq (m d : Int) (leap : Bool) (hm1 : 1 ≤ m) :
    ordinalDayNumber m d leap =
      d + (if m = 1 then 0
        else if m = 2 then 31
        else 59 + (153 * (m - 3) + 2) / 5 + (if leap then 1 else 0)) := by
  unfold ordinalDayNumber
  by_cases h1 : m = 1
  · simp [h1]
  · by_cases h2 : m = 2
    · simp [h1, h2]
    · rw [if_neg h1, if_neg h2, if_neg h1, if_neg h2,
        tdiv_nonneg_eq _ 5 (by omega) (by norm_num)]

/-- Range of the ordinal day number: between the day of month and
`365 + leap`. -/
theorem ordinalDayNumber_range (m d : Int) (leap : Bool) (hm1 : 1 ≤ m)
    (hm2 : m ≤ 12) (hd1 : 1 ≤ d) (hd2 : d ≤ 31) :
    1 ≤ ordinalDayNumber m d leap ∧
      ordinalDayNumber m d leap ≤ 365 + (if leap then 1 else 0) := by
  rw [ordinalDayNumber_eq m d leap hm1]
  split_ifs <;> omega

/-- Range of the day component of `gregorian`. -/
theorem greg_day_range (j : Int) (hj : 0 ≤ j) :
    1 ≤ greg_day j ∧ greg_day j ≤ 31 := by
  rw [greg_day_eq j hj]
  have h1 : 0 ≤ greg_h j % 153 := Int.emod_nonneg _ (by norm_num)
  have h2 : greg_h j % 153 < 153 := Int.emod_lt_of_pos _ (by norm_num)
  omega

/-- The year produced by `gregorian` on a non-negative JDN is at least
−4713. -/
theorem greg_year_lb (j : Int) (hj : 0 ≤ j) : -4713 ≤ greg_year j := by
  have hb : 0 ≤ (4 * j + 274277) / 146097 * 3 / 4 := by positivity
  have hf : j + 1363 ≤ greg_f j := by
    rw [greg_f_eq j hj]
    omega
  have he : 4 * (j + 1363) + 3 ≤ greg_e j := by
    rw [greg_e_eq]
    omega
  have hY : 3 ≤ greg_e j / 1461 := by
    have : (5455 : Int) ≤ greg_e j := by omega
    omega
  have ho : (0 : Int) ≤ (12 + 2 - greg_month j) / 12 := by
    obtain ⟨h1, h2⟩ := greg_month_range j hj
    exact Int.ediv_nonneg (by omega) (by norm_num)
  rw [greg_year_eq j hj]
  omega

theorem mul1461_div4 (x : Int) : 1461 * x / 4 = 365 * x + x / 4 := by
  rw [show 1461 * x = x + 4 * (365 * x) by ring,
    Int.add_mul_ediv_left _ _ (by norm_num : (4 : Int) ≠ 0)]
  ring

/-- The year-dependent terms of the JDN formula step by the year length
(365 or 366 days) between the January-of-`y` form and the
previous-December form; proved by decomposing `y` along its 400-year
cycle. -/
theorem yearTerms (y : Int) (hy : -4716 ≤ y) :
    1461 * (y + 4800) / 4 - 3 * ((y + 4900) / 100) / 4 =
      1461 * (y + 4799) / 4 - 3 * ((y + 4899) / 100) / 4 + 365 +
        (if isLeapYear y then 1 else 0) := by
  have h1 := mul1461_div4 (y + 4800)
  have h2 := mul1461_div4 (y + 4799)
  have hs1 : (y + 4900) / 100 = y % 400 / 100 + (4 * (y / 400) + 49) := by
    rw [show y + 4900 = y % 400 + 100 * (4 * (y / 400) + 49) by omega,
      Int.add_mul_ediv_left _ _ (by norm_num : (100 : Int) ≠ 0)]
  have hs2 : (y + 4899) / 100 = (y % 400 - 1) / 100 + (4 * (y / 400) + 49) := by
    rw [show y + 4899 = (y % 400 - 1) + 100 * (4 * (y / 400) + 49) by omega,
      Int.add_mul_ediv_left _ _ (by norm_num : (100 : Int) ≠ 0)]
  have hc1 : 3 * ((y + 4900) / 100) / 4
      = (3 * (y % 400 / 100) + 147) / 4 + 3 * (y / 400) := by
    rw [hs1, show 3 * (y % 400 / 100 + (4 * (y / 400) + 49))
        = (3 * (y % 400 / 100) + 147) + (3 * (y / 400)) * 4 by ring,
      Int.add_mul_ediv_right _ _ (by norm_num : (4 : Int) ≠ 0)]
  have hc2 : 3 * ((y + 4899) / 100) / 4
      = (3 * ((y % 400 - 1) / 100) + 147) / 4 + 3 * (y / 400) := by
    rw [hs2, show 3 * ((y % 400 - 1) / 100 + (4 * (y / 400) + 49))
        = (3 * ((y % 400 - 1) / 100) + 147) + (3 * (y / 400)) * 4 by ring,
      Int.add_mul_ediv_right _ _ (by norm_num : (4 : Int) ≠ 0)]
  rw [h1, h2, hc1, hc2]
  have hleap := isLeapYear_iff y
  by_cases hb : isLeapYear y = true
  · replace hleap := hleap.mp hb
    rw [hb]
    simp only [if_true]
    omega
  · rw [Bool.not_eq_true] at hb
    rw [hb] at hleap
    simp only [Bool.false_eq_true, false_iff] at hleap
    rw [hb]
    simp only [Bool.false_eq_true, if_false]
    omega

/-- The JDN formula splits into its January 1 value plus the ordinal day
number minus one: the formula's month/leap structure agrees with
`ordinal_day_number`. -/
theorem fromGregorianJdn_ordinal (y m d : Int) (hm1 : 1 ≤ m) (hm2 : m ≤ 12)
    (hy : -4716 ≤ y) :
    fromGregorianJdn y m d =
      fromGregorianJdn y 1 1 + ordinalDayNumber m d (isLeapYear y) - 1 := by
  rw [fromGregorianJdn_eq y m d hm1 hm2 hy,
    fromGregorianJdn_eq y 1 1 (by norm_num) (by norm_num) hy,
    ordinalDayNumber_eq m d _ hm1]
  have hL := yearTerms y hy
  have hK1 : -((14 - (1 : Int)) / 12) = -1 := by decide
  rw [hK1, show y + 4800 + -1 = y + 4799 by ring,
    show y + 4900 + -1 = y + 4899 by ring]
  by_cases hm3 : m ≤ 2
  · have hK : -((14 - m) / 12) = -1 := by omega
    rw [hK, show y + 4800 + -1 = y + 4799 by ring,
      show y + 4900 + -1 = y + 4899 by ring]
    clear hL
    split_ifs <;> omega
  · have hK : -((14 - m) / 12) = 0 := by omega
    rw [hK, show y + 4800 + (0 : Int) = y + 4800 by ring,
      show y + 4900 + (0 : Int) = y + 4900 by ring]
    have hB : 367 * (m - 2 - 12 * 0) / 12 = (153 * (m - 3) + 2) / 5 + 30 := by
      interval_cases m <;> decide
    rw [hB]
    split_ifs at hL ⊢ <;> omega

/-- January 1 of `y + 1` is the day after December 31 of `y` (an identity of
the raw formula). -/
theorem jan1_dec31 (y : Int) (hy : -4716 ≤ y) :
    fromGregorianJdn (y + 1) 1 1 = fromGregorianJdn y 12 31 + 1 := by
  rw [fromGregorianJdn_eq (y + 1) 1 1 (by norm_num) (by norm_num) (by omega),
    fromGregorianJdn_eq y 12 31 (by norm_num) (by norm_num) hy,
    show -((14 - (1 : Int)) / 12) = -1 by decide,
    show -((14 - (12 : Int)) / 12) = 0 by decide,
    show y + 1 + 4800 + -1 = y + 4800 by ring,
    show y + 1 + 4900 + -1 = y + 4900 by ring,
    show y + 4800 + (0 : Int) = y + 4800 by ring,
    show y + 4900 + (0 : Int) = y + 4900 by ring]
  omega

/-- January 1 steps by the length of the year: 365 plus the leap day. -/
theorem jan1_step (y : Int) (hy : -4716 ≤ y) :
    fromGregorianJdn (y + 1) 1 1 =
      fromGregorianJdn y 1 1 + 365 + (if isLeapYear y then 1 else 0) := by
  rw [jan1_dec31 y hy,
    fromGregorianJdn_ordinal y 12 31 (by norm_num) (by norm_num) hy,
    ordinalDayNumber_eq 12 31 _ (by norm_num)]
  split_ifs <;> omega

/-- January 1 is monotone in the year, with gaps of at least 365 days per
year. -/
theorem jan1_mono (a b : Int) (ha : -4716 ≤ a) (hab : a ≤ b) :
    fromGregorianJdn a 1 1 + 365 * (b - a) ≤ fromGregorianJdn b 1 1 := by
  have H : ∀ n, a ≤ n →
      fromGregorianJdn a 1 1 + 365 * (n - a) ≤ fromGregorianJdn n 1 1 := by
    refine Int.le_induction ?_ ?_
    · omega
    · intro n hn ih
      have hstep := jan1_step n (by omega)
      split_ifs at hstep <;> omega
  exact H b hab

/-- Position of a non-negative JDN inside its own year: between 1 and the
year length, at offset `ordinal - 1` from January 1. -/
theorem greg_facts (j : Int) (hj : 0 ≤ j) :
    -4713 ≤ greg_year j ∧
      1 ≤ ordinalDayNumber (greg_month j) (greg_day j) (isLeapYear (greg_year j)) ∧
      ordinalDayNumber (greg_month j) (greg_day j) (isLeapYear (greg_year j))
        ≤ 365 + (if isLeapYear (greg_year j) then 1 else 0) ∧
      j = fromGregorianJdn (greg_year j) 1 1
        + ordinalDayNumber (greg_month j) (greg_day j) (isLeapYear (greg_year j)) - 1 := by
  obtain ⟨hm1, hm2⟩ := greg_month_range j hj
  obtain ⟨hd1, hd2⟩ := greg_day_range j hj
  have hylb := greg_year_lb j hj
  obtain ⟨ho1, ho2⟩ :=
    ordinalDayNumber_range _ _ (isLeapYear (greg_year j)) hm1 hm2 hd1 hd2
  have hrt := fromGregorianJdn_gregorian j hj
  have hord := fromGregorianJdn_ordinal (greg_year j) (greg_month j) (greg_day j)
    hm1 hm2 (by omega)
  exact ⟨hylb, ho1, ho2, by omega⟩

/-- Inverse of `greg_facts`: the `n`-th day of year `y` (counted from
January 1) decodes to year `y` and ordinal `n`. -/
theorem gregOrd_of_jan1 (y n : Int) (hy : -4716 ≤ y) (hn1 : 1 ≤ n)
    (hn2 : n ≤ 365 + (if isLeapYear y then 1 else 0))
    (ht : 0 ≤ fromGregorianJdn y 1 1 - 1 + n) :
    greg_year (fromGregorianJdn y 1 1 - 1 + n) = y ∧
      ordinalDayNumber (greg_month (fromGregorianJdn y 1 1 - 1 + n))
        (greg_day (fromGregorianJdn y 1 1 - 1 + n)) (isLeapYear y) = n := by
  obtain ⟨hy2, hdn1, hdn2, heq⟩ := greg_facts (fromGregorianJdn y 1 1 - 1 + n) ht
  have hyy : greg_year (fromGregorianJdn y 1 1 - 1 + n) = y := by
    by_contra hne
    rcases lt_or_gt_of_ne hne with hlt | hgt
    · have hstep := jan1_step (greg_year (fromGregorianJdn y 1 1 - 1 + n)) (by omega)
      have hmono := jan1_mono (greg_year (fromGregorianJdn y 1 1 - 1 + n) + 1) y
        (by omega) (by omega)
      split_ifs at hstep hdn2 <;> omega
    · have hstep := jan1_step y (by omega)
      have hmono := jan1_mono (y + 1) (greg_year (fromGregorianJdn y 1 1 - 1 + n))
        (by omega) (by omega)
      split_ifs at hstep hn2 <;> omega
  refine ⟨hyy, ?_⟩
  rw [hyy] at heq
  omega


/-- Evaluation of `year_week_gregorian` on its first branch (a date of early
January whose week belongs to the previous year). -/
theorem ywg_eval_A (j : Nat)
    (hc : ywg_dow1 j > 4 ∧ ywg_dow1 j - 1 + ywg_dn j ≤ 7) :
    yearWeekGregorian j =
      (if ywg_dow1 j < 6 then ((greg_year (j : Int) - 1 : Int), (53 : Int))
       else if ywg_dow1 j = 6 then
         (greg_year (j : Int) - 1,
           52 + (if isLeapYear (greg_year (j : Int) - 1) then 1 else 0))
       else (greg_year (j : Int) - 1, 52)) := by
  unfold yearWeekGregorian
  rw [if_pos hc]

/-- Evaluation of `year_week_gregorian` on its second branch (a date of late
December whose week belongs to the next year). -/
theorem ywg_eval_C (j : Nat)
    (hc1 : ¬(ywg_dow1 j > 4 ∧ ywg_dow1 j - 1 + ywg_dn j ≤ 7))
    (hc2 : ywg_dowLast j < 4 ∧
      365 + ywg_leap j + 1 - ywg_dn j ≤ ywg_dowLast j) :
    yearWeekGregorian j = (greg_year (j : Int) + 1, 1) := by
  unfold yearWeekGregorian
  rw [if_neg hc1, if_pos hc2]

/-- Evaluation of `year_week_gregorian` on its final branch (a week inside
the date's own calendar year). -/
theorem ywg_eval_B (j : Nat)
    (hc1 : ¬(ywg_dow1 j > 4 ∧ ywg_dow1 j - 1 + ywg_dn j ≤ 7))
    (hc2 : ¬(ywg_dowLast j < 4 ∧
      365 + ywg_leap j + 1 - ywg_dn j ≤ ywg_dowLast j)) :
    yearWeekGregorian j =
      (greg_year (j : Int),
        Int.tdiv (ywg_dow1 j + ywg_dn j - 2) 7 +
          (if ywg_dow1 j ≤ 4 then 1 else 0)) := by
  unfold yearWeekGregorian
  rw [if_neg hc1, if_neg hc2]

/-- Evaluation of the ISO-week specification once the Thursday of the
date's week is located as day number `n` of year `yp`. -/
theorem isoWeekSpec_eval (j : Nat) (yp n : Int)
    (hth : iso_th j = fromGregorianJdn yp 1 1 - 1 + n)
    (h1 : -4716 ≤ yp) (h2 : 1 ≤ n)
    (h3 : n ≤ 365 + (if isLeapYear yp then 1 else 0))
    (h4 : 0 ≤ fromGregorianJdn yp 1 1 - 1 + n) :
    isoWeekSpec j = (yp, (n + 6) / 7) := by
  obtain ⟨hgy, hgord⟩ := gregOrd_of_jan1 yp n h1 h2 h3 h4
  unfold isoWeekSpec
  rw [hth, hgy, hgord]

/-- Lower bounds on neighbouring years, as needed by `jan1_step`. -/
theorem ylb_bounds (y : Int) (h : -4713 ≤ y) :
    -4716 ≤ y - 1 ∧ -4716 ≤ y ∧ -4716 ≤ y + 1 := by
  omega

set_option maxHeartbeats 1600000 in
/-- Arithmetic core of the ISO-week equivalence: with every intermediate
quantity of `year_week_gregorian` abstracted to an integer variable
(`w1` = weekday of January 1, `wL` = weekday of December 31, `D` = ordinal
day number, `T` = the week's Thursday, `F`/`Fm`/`Fp` = the JDNs of
January 1 of years `Y`/`Y-1`/`Y+1`), exactly one of the three branches of
the code applies, and in each one the code's week number equals the
specification's `(ordinal + 6) / 7`. -/
theorem ywg_arith (jz Y D lY lYm lYp F Fm Fp w1 wL T : Int)
    (hjz : 0 ≤ jz)
    (hdn1 : 1 ≤ D) (hdn2 : D ≤ 365 + lY)
    (heq : jz = F + D - 1)
    (hw1 : w1 = ((jz % 7 + 1) - D) % 7 + 1)
    (hwL : wL = (w1 + 364 + lY - 1) % 7 + 1)
    (hT : T = jz + 3 - jz % 7)
    (hMm : F = Fm + 365 + lYm)
    (hMp : Fp = F + 365 + lY)
    (hlYr : lY = 0 ∨ lY = 1) (hlYmr : lYm = 0 ∨ lYm = 1)
    (hlYpr : lYp = 0 ∨ lYp = 1) :
    ((w1 > 4 ∧ w1 - 1 + D ≤ 7) ∧
      T = Fm - 1 + (D + 3 - jz % 7 + 365 + lYm) ∧
      1 ≤ D + 3 - jz % 7 + 365 + lYm ∧
      D + 3 - jz % 7 + 365 + lYm ≤ 365 + lYm ∧
      0 ≤ Fm - 1 + (D + 3 - jz % 7 + 365 + lYm) ∧
      (w1 < 6 → (53 : Int) = (D + 3 - jz % 7 + 365 + lYm + 6) / 7) ∧
      (¬w1 < 6 → w1 = 6 → 52 + lYm = (D + 3 - jz % 7 + 365 + lYm + 6) / 7) ∧
      (¬w1 < 6 → ¬w1 = 6 → (52 : Int) = (D + 3 - jz % 7 + 365 + lYm + 6) / 7)) ∨
    (¬(w1 > 4 ∧ w1 - 1 + D ≤ 7) ∧ (wL < 4 ∧ 365 + lY + 1 - D ≤ wL) ∧
      T = Fp - 1 + (D + 3 - jz % 7 - 365 - lY) ∧
      1 ≤ D + 3 - jz % 7 - 365 - lY ∧
      D + 3 - jz % 7 - 365 - lY ≤ 365 + lYp ∧
      0 ≤ Fp - 1 + (D + 3 - jz % 7 - 365 - lY) ∧
      (1 : Int) = (D + 3 - jz % 7 - 365 - lY + 6) / 7) ∨
    (¬(w1 > 4 ∧ w1 - 1 + D ≤ 7) ∧ ¬(wL < 4 ∧ 365 + lY + 1 - D ≤ wL) ∧
      T = F - 1 + (D + 3 - jz % 7) ∧
      1 ≤ D + 3 - jz % 7 ∧
      D + 3 - jz % 7 ≤ 365 + lY ∧
      0 ≤ F - 1 + (D + 3 - jz % 7) ∧
      0 ≤ w1 + D - 2 ∧
      (w1 ≤ 4 → (w1 + D - 2) / 7 + 1 = (D + 3 - jz % 7 + 6) / 7) ∧
      (¬w1 ≤ 4 → (w1 + D - 2) / 7 = (D + 3 - jz % 7 + 6) / 7)) := by
  by_cases hA : D + 3 - jz % 7 ≤ 0
  · refine Or.inl ⟨?_, ?_, ?_, ?_, ?_, ?_, ?_, ?_⟩ <;> (intros; omega)
  · by_cases hC : 365 + lY < D + 3 - jz % 7
    · refine Or.inr (Or.inl ⟨?_, ?_, ?_, ?_, ?_, ?_, ?_⟩) <;> (intros; omega)
    · refine Or.inr (Or.inr ⟨?_, ?_, ?_, ?_, ?_, ?_, ?_, ?_, ?_⟩) <;> (intros; omega)

/-- **C5.** `year_week_gregorian` implements the full ISO-8601 week rule on
every date: it always agrees with the first-principles specification
`isoWeekSpec` ("week 1 is the week containing the year's first Thursday"),
including dates of late December that belong to week 1 of the next ISO year,
dates of early January that belong to week 52/53 of the previous ISO year,
and the leap-year-dependent 52-versus-53 decision. -/
theorem yearWeekGregorian_iso (j : Nat) :
    yearWeekGregorian j = isoWeekSpec j := by
  have hj : (0 : Int) ≤ (j : Int) := Int.natCast_nonneg j
  have hdow : ((dayOfWeek j : Nat) : Int) = (j : Int) % 7 + 1 := by
    unfold dayOfWeek
    omega
  have hdow1 : ywg_dow1 j = (((j : Int) % 7 + 1) - ywg_dn j) % 7 + 1 := by
    unfold ywg_dow1
    rw [hdow]
  have hth : iso_th j = (j : Int) + 3 - (j : Int) % 7 := by
    unfold iso_th
    rw [hdow]
    ring
  obtain ⟨hylb, hdn1, hdn2, heq⟩ := greg_facts (j : Int) hj
  have hD : ywg_dn j = ordinalDayNumber (greg_month (j : Int))
      (greg_day (j : Int)) (isLeapYear (greg_year (j : Int))) := rfl
  have hLe : ywg_leap j = (if isLeapYear (greg_year (j : Int)) then 1 else 0) := rfl
  have hDL : ywg_dowLast j = (ywg_dow1 j + 364 + ywg_leap j - 1) % 7 + 1 := rfl
  obtain ⟨Y, hYdef⟩ : ∃ v, greg_year (j : Int) = v := ⟨_, rfl⟩
  rw [hYdef] at hylb hdn1 hdn2 heq hD hLe
  obtain ⟨D, hDdef⟩ : ∃ v, ordinalDayNumber (greg_month (j : Int))
      (greg_day (j : Int)) (isLeapYear Y) = v := ⟨_, rfl⟩
  rw [hDdef] at hdn1 hdn2 heq hD
  rw [hD] at hdow1
  obtain ⟨lY, hlYr, hlYe⟩ :
      ∃ v : Int, (v = 0 ∨ v = 1) ∧ (if isLeapYear Y then (1 : Int) else 0) = v := by
    by_cases hb : isLeapYear Y = true
    · exact ⟨1, Or.inr rfl, by rw [hb]; simp⟩
    · rw [Bool.not_eq_true] at hb
      exact ⟨0, Or.inl rfl, by rw [hb]; simp⟩
  obtain ⟨lYm, hlYmr, hlYme⟩ :
      ∃ v : Int, (v = 0 ∨ v = 1) ∧
        (if isLeapYear (Y - 1) then (1 : Int) else 0) = v := by
    by_cases hb : isLeapYear (Y - 1) = true
    · exact ⟨1, Or.inr rfl, by rw [hb]; simp⟩
    · rw [Bool.not_eq_true] at hb
      exact ⟨0, Or.inl rfl, by rw [hb]; simp⟩
  obtain ⟨lYp, hlYpr, hlYpe⟩ :
      ∃ v : Int, (v = 0 ∨ v = 1) ∧
        (if isLeapYear (Y + 1) then (1 : Int) else 0) = v := by
    by_cases hb : isLeapYear (Y + 1) = true
    · exact ⟨1, Or.inr rfl, by rw [hb]; simp⟩
    · rw [Bool.not_eq_true] at hb
      exact ⟨0, Or.inl rfl, by rw [hb]; simp⟩
  rw [hlYe] at hdn2 hLe
  rw [hLe] at hDL
  obtain ⟨F, hF⟩ : ∃ v, fromGregorianJdn Y 1 1 = v := ⟨_, rfl⟩
  rw [hF] at heq
  obtain ⟨w1, hw1⟩ : ∃ v, ywg_dow1 j = v := ⟨_, rfl⟩
  rw [hw1] at hdow1 hDL
  obtain ⟨wL, hwL⟩ : ∃ v, ywg_dowLast j = v := ⟨_, rfl⟩
  rw [hwL] at hDL
  obtain ⟨T, hT⟩ : ∃ v, iso_th j = v := ⟨_, rfl⟩
  rw [hT] at hth
  obtain ⟨hbm, hb0, hbp⟩ := ylb_bounds Y hylb
  have hstepA := jan1_step (Y - 1) hbm
  rw [show Y - 1 + 1 = Y by ring, hlYme, hF] at hstepA
  obtain ⟨Fm, hFm⟩ : ∃ v, fromGregorianJdn (Y - 1) 1 1 = v := ⟨_, rfl⟩
  rw [hFm] at hstepA
  have hstepC := jan1_step Y hb0
  rw [hlYe, hF] at hstepC
  obtain ⟨Fp, hFp⟩ : ∃ v, fromGregorianJdn (Y + 1) 1 1 = v := ⟨_, rfl⟩
  rw [hFp] at hstepC
  rcases ywg_arith (j : Int) Y D lY lYm lYp F Fm Fp w1 wL T hj hdn1 hdn2 heq
      hdow1 hDL hth hstepA hstepC hlYr hlYmr hlYpr with
    ⟨hc1, hT1, hn1a, hn2a, ht0a, h53, h52l, h52⟩ |
    ⟨hc1, hc2, hT1, hn1c, hn2c, ht0c, h1eq⟩ |
    ⟨hc1, hc2, hT1, hn1b, hn2b, ht0b, hwpos, hq1, hq2⟩
  · -- the week's Thursday falls in the previous year
    have hcond : ywg_dow1 j > 4 ∧ ywg_dow1 j - 1 + ywg_dn j ≤ 7 := by
      rw [hw1, hD]
      exact hc1
    have hspec : isoWeekSpec j =
        (Y - 1, (D + 3 - (j : Int) % 7 + 365 + lYm + 6) / 7) :=
      isoWeekSpec_eval j (Y - 1) (D + 3 - (j : Int) % 7 + 365 + lYm)
        (by rw [hT, hFm]; exact hT1) hbm hn1a (by rw [hlYme]; exact hn2a)
        (by rw [hFm]; exact ht0a)
    rw [ywg_eval_A j hcond, hYdef, hlYme, hw1, hspec]
    split_ifs with h5 h6
    · exact congrArg (Prod.mk (Y - 1)) (h53 h5)
    · exact congrArg (Prod.mk (Y - 1)) (h52l h5 h6)
    · exact congrArg (Prod.mk (Y - 1)) (h52 h5 h6)
  · -- the week's Thursday falls in the next year
    have hcond1 : ¬(ywg_dow1 j > 4 ∧ ywg_dow1 j - 1 + ywg_dn j ≤ 7) := by
      rw [hw1, hD]
      exact hc1
    have hcond2 : ywg_dowLast j < 4 ∧
        365 + ywg_leap j + 1 - ywg_dn j ≤ ywg_dowLast j := by
      rw [hwL, hLe, hD]
      exact hc2
    have hspec : isoWeekSpec j =
        (Y + 1, (D + 3 - (j : Int) % 7 - 365 - lY + 6) / 7) :=
      isoWeekSpec_eval j (Y + 1) (D + 3 - (j : Int) % 7 - 365 - lY)
        (by rw [hT, hFp]; exact hT1) hbp hn1c (by rw [hlYpe]; exact hn2c)
        (by rw [hFp]; exact ht0c)
    rw [ywg_eval_C j hcond1 hcond2, hYdef, hspec]
    exact congrArg (Prod.mk (Y + 1)) h1eq
  · -- the week's Thursday falls inside the date's own year
    have hcond1 : ¬(ywg_dow1 j > 4 ∧ ywg_dow1 j - 1 + ywg_dn j ≤ 7) := by
      rw [hw1, hD]
      exact hc1
    have hcond2 : ¬(ywg_dowLast j < 4 ∧
        365 + ywg_leap j + 1 - ywg_dn j ≤ ywg_dowLast j) := by
      rw [hwL, hLe, hD]
      exact hc2
    have hspec : isoWeekSpec j = (Y, (D + 3 - (j : Int) % 7 + 6) / 7) :=
      isoWeekSpec_eval j Y (D + 3 - (j : Int) % 7)
        (by rw [hT, hF]; exact hT1) hb0 hn1b (by rw [hlYe]; exact hn2b)
        (by rw [hF]; exact ht0b)
    have htd : Int.tdiv (ywg_dow1 j + ywg_dn j - 2) 7
        = (ywg_dow1 j + ywg_dn j - 2) / 7 := by
      refine tdiv_nonneg_eq _ _ ?_ (by norm_num)
      rw [hw1, hD]
      exact hwpos
    rw [ywg_eval_B j hcond1 hcond2, hYdef, htd, hw1, hD, hspec]
    split_ifs with h4
    · exact congrArg (Prod.mk Y) (hq1 h4)
    · rw [add_zero]
      exact congrArg (Prod.mk Y) (hq2 h4)
